import Mathlib

/-!
A websocket message relay: router, registry and fan-out.

Verification development for `pkg/server/server.go` and `pkg/client/client.go`.

The development has two layers.

* The *function layer* embeds the functions that run on their own: the
  constructors and the map updates of the two registry workers.
* The *system layer* composes the three router workers started by `main`
  (`messageBroadcastHandler`, `connectionHandler`, `disconnectionHandler`)
  with the unbuffered channels and the mutex of the router into one step
  function over the state of the server, so that blocking, interleavings and
  deadlock can be stated.  The broadcast worker and the connection handler
  live in this layer: what they do depends on whether their channel sends
  complete.
-/

namespace Relay

/-! ## Data model -/

/-- One octet of a `[]byte` or of a Go `string`. -/
abbrev Byte := Fin 256

/-- A Go `[]byte` value. -/
abbrev Bytes := List Byte

/-- A Go `string`: an immutable sequence of bytes (not necessarily UTF-8). -/
abbrev GoString := List Byte

/-- The conversion `string(b)` of a `[]byte` to a `string`: the same bytes. -/
def stringOfBytes (b : Bytes) : GoString := b

/-- The bytes of an ASCII string literal of the source. -/
def lit (s : String) : GoString := s.toList.map (fun c => Fin.ofNat c.toNat)

/-- Identity of a `*websocket.Conn`. -/
abbrev Conn := Nat

/-- The `client` struct of server.go: a websocket connection and the name it
is referenced by. -/
structure client where
  connection : Conn
  name : GoString
deriving DecidableEq, Repr

/-- A channel made by `make(chan T)` without a capacity: it is unbuffered, a
send completes only together with a receive.  A channel variable is an
`Option`, `none` being the nil channel. -/
inductive chan (α : Type) where
  | unbuffered : chan α
deriving DecidableEq, Repr

/-- A non-nil `map[string]*client`, as the list of its entries.  The order of
the list carries no meaning: iteration order is given separately. -/
abbrev ClientMap := List (GoString × client)

/-- The Go statement `m[k] = v`: the entry for `k` is inserted or replaced. -/
def mapStore (m : ClientMap) (k : GoString) (v : client) : ClientMap :=
  (k, v) :: m.filter (fun e => decide (e.1 ≠ k))

/-- The Go builtin `delete(m, k)`: removes the entry for `k` if there is one. -/
def mapDelete (m : ClientMap) (k : GoString) : ClientMap :=
  m.filter (fun e => decide (e.1 ≠ k))

/-- The Go expression `m[k]` with the comma-ok form: the value under `k`. -/
def mapLookup (m : ClientMap) (k : GoString) : Option client :=
  (m.find? (fun e => decide (e.1 = k))).map Prod.snd

/-- The `router` struct of server.go.  `clients = none` is the nil map;
`mutex` is `true` while the `sync.Mutex` is locked. -/
structure router where
  messages : Option (chan Bytes)
  register : Option (chan client)
  unregister : Option (chan client)
  clients : Option ClientMap
  mutex : Bool
deriving DecidableEq, Repr

/-- The entries a `range router.clients` loop visits: those of the map, none
for the nil map. -/
def rangeClients (r : router) : ClientMap := r.clients.getD []

/-- The handles (client pointers) held by `router.clients`. -/
def handles (r : router) : List client := (rangeClients r).map Prod.snd

/-- The invariant of a map built by `connectionHandler`: keys are distinct and
every client is stored under its own name. -/
def RegistryOK (m : ClientMap) : Prop :=
  (m.map Prod.fst).Nodup ∧ ∀ e ∈ m, e.2.name = e.1

instance (m : ClientMap) : Decidable (RegistryOK m) := by
  unfold RegistryOK; infer_instance

/-! ## Function layer: server.go -/

/-- The function `newRouter` (server.go 90-97): three channels made without a
capacity, an empty non-nil map, and the zero value of the mutex. -/
def newRouter : router :=
  { messages := some chan.unbuffered
    register := some chan.unbuffered
    unregister := some chan.unbuffered
    clients := some []
    mutex := false }

/-- The function `newClient` (server.go 100-105). -/
def newClient (name : Bytes) (connection : Conn) : client :=
  { name := stringOfBytes name
    connection := connection }

/-- One iteration of the loop of `connectionHandler` (server.go 109-117) for a
received `connection`: under the mutex, `router.clients[connection.name] =
connection`.  The result is `none` when the assignment panics on a nil map.
The mutex is acquired and released around the update. -/
def connectionHandler (r : router) (connection : client) : Option router :=
  match r.clients with
  | none => none
  | some m => some { r with clients := some (mapStore m connection.name connection) }

/-- One iteration of the loop of `disconnectionHandler` (server.go 123-129) for
a received `connection`: under the mutex, `delete(router.clients,
connection.name)`.  The builtin `delete` cannot fail, on a nil map it does
nothing. -/
def disconnectionHandler (r : router) (connection : client) : router :=
  { r with clients := r.clients.map (fun m => mapDelete m connection.name) }

/-! ## System layer: the workers of `main` composed

`main` (server.go 161-170) makes one router and starts the three workers as
goroutines.  Connection handlers are the environment: they send on the three
channels.  All three channels are unbuffered, so a send is one step together
with the receive of the worker that reads the channel, and it is enabled only
while that worker stands at its receive.  `Lock` is enabled only while the
mutex is free. -/

/-- Where `connectionHandler` stands. -/
inductive ConnPC where
  /-- Line 109: waits to receive from `router.register`. -/
  | recv
  /-- Line 112: has received `c`, next is `router.mutex.Lock()`. -/
  | lock (c : client)
  /-- Line 115: holds the mutex, next is the map assignment. -/
  | store (c : client)
  /-- Line 116: next is `router.mutex.Unlock()`. -/
  | unlock
deriving DecidableEq, Repr

/-- Where `disconnectionHandler` stands. -/
inductive DiscPC where
  /-- Line 123: waits to receive from `router.unregister`. -/
  | recv
  /-- Line 126: has received `c`, next is `router.mutex.Lock()`. -/
  | lock (c : client)
  /-- Line 127: holds the mutex, next is `delete`. -/
  | delete (c : client)
  /-- Line 128: next is `router.mutex.Unlock()`. -/
  | unlock
deriving DecidableEq, Repr

/-- Where `messageBroadcastHandler` stands. -/
inductive BcastPC where
  /-- Line 136: waits to receive from `router.messages`. -/
  | recv
  /-- Line 138: has received `message`, next is `router.mutex.Lock()`. -/
  | lock (message : Bytes)
  /-- Line 140: holds the mutex, `todo` are the entries still to visit; with
  no entry left the next statement is `router.mutex.Unlock()` (line 150). -/
  | range (message : Bytes) (todo : ClientMap)
  /-- Line 147: `WriteMessage` on `c` returned an error, next is
  `router.unregister <- client`. -/
  | send (message : Bytes) (c : client) (todo : ClientMap)
deriving DecidableEq, Repr

/-- One call of `WriteMessage` made by the broadcast worker. -/
structure WriteCall where
  c : client
  message : Bytes
  err : Bool
deriving DecidableEq, Repr

/-- The state of the running server: the router, the position of each worker
and the history of `WriteMessage` calls. -/
structure System where
  r : router
  conn : ConnPC
  disc : DiscPC
  bcast : BcastPC
  writes : List WriteCall
deriving DecidableEq, Repr

/-- The steps of the running server. -/
inductive Event where
  /-- A connection handler's `router.register <- client` (line 74) completes. -/
  | handlerRegister (c : client)
  /-- A connection handler's deferred `router.unregister <- client` (line 75)
  completes. -/
  | handlerUnregister (c : client)
  /-- A connection handler's `router.messages <- message` (line 85) completes. -/
  | handlerPublish (message : Bytes)
  /-- The worker `connectionHandler` executes its next statement. -/
  | conn
  /-- The worker `disconnectionHandler` executes its next statement. -/
  | disc
  /-- The broadcast worker locks the mutex (line 138) and starts the range
  loop, the runtime choosing the iteration order `ord`. -/
  | bcastLock (ord : ClientMap)
  /-- The broadcast worker calls `WriteMessage` on the next entry (line 142);
  `err` tells whether the call returns an error. -/
  | bcastWrite (err : Bool)
  /-- The broadcast worker's `router.unregister <- client` (line 147)
  completes. -/
  | bcastUnregister
  /-- The broadcast worker leaves the range loop and unlocks (line 150). -/
  | bcastUnlock
deriving DecidableEq, Repr

/-- The state after `main` has made the router and started the workers. -/
def start (r : router) : System :=
  { r := r, conn := ConnPC.recv, disc := DiscPC.recv, bcast := BcastPC.recv, writes := [] }

/-- The router with its mutex set to `b`. -/
def setMutex (r : router) (b : Bool) : router := { r with mutex := b }

/-- The worker `connectionHandler` (server.go 108-119) executes its next
statement; `none` when it blocks (at the receive, where it moves only together
with a sender, or at `Lock` while the mutex is held) or when the assignment to
a nil map stops the program. -/
def connectionHandlerStep (s : System) : Option System :=
  match s.conn with
  | ConnPC.recv => none
  | ConnPC.lock c =>
    if s.r.mutex then none
    else some { s with r := setMutex s.r true, conn := ConnPC.store c }
  | ConnPC.store c =>
    match connectionHandler s.r c with
    | none => none
    | some r => some { s with r := r, conn := ConnPC.unlock }
  | ConnPC.unlock => some { s with r := setMutex s.r false, conn := ConnPC.recv }

/-- The worker `disconnectionHandler` (server.go 122-131) executes its next
statement; `none` when it blocks (at the receive, or at `Lock` while the mutex
is held). -/
def disconnectionHandlerStep (s : System) : Option System :=
  match s.disc with
  | DiscPC.recv => none
  | DiscPC.lock c =>
    if s.r.mutex then none
    else some { s with r := setMutex s.r true, disc := DiscPC.delete c }
  | DiscPC.delete c => some { s with r := disconnectionHandler s.r c, disc := DiscPC.unlock }
  | DiscPC.unlock => some { s with r := setMutex s.r false, disc := DiscPC.recv }

/-- The worker `messageBroadcastHandler` (server.go 134-153) executes its next
statement.  `Lock` (line 138) needs the mutex free; the range loop visits the
entries of the map in an order `ord` chosen by the runtime, a permutation of
the entries; `WriteMessage` (line 142) is recorded with its outcome; after an
error the send on `router.unregister` (line 147) completes only while
`disconnectionHandler` stands at its receive, and then hands it the client;
`Unlock` (line 150) follows the last entry. -/
def messageBroadcastHandlerStep (s : System) : Event → Option System
  | Event.bcastLock ord =>
    match s.bcast with
    | BcastPC.lock message =>
      if s.r.mutex = false ∧ ord.Perm (rangeClients s.r) then
        some { s with r := setMutex s.r true, bcast := BcastPC.range message ord }
      else none
    | _ => none
  | Event.bcastWrite err =>
    match s.bcast with
    | BcastPC.range message ((_, c) :: todo) =>
      some { s with
        writes := s.writes ++ [{ c := c, message := message, err := err }]
        bcast := if err then BcastPC.send message c todo else BcastPC.range message todo }
    | _ => none
  | Event.bcastUnregister =>
    match s.bcast with
    | BcastPC.send message c todo =>
      if s.disc = DiscPC.recv ∧ s.r.unregister.isSome then
        some { s with disc := DiscPC.lock c, bcast := BcastPC.range message todo }
      else none
    | _ => none
  | Event.bcastUnlock =>
    match s.bcast with
    | BcastPC.range _ [] => some { s with r := setMutex s.r false, bcast := BcastPC.recv }
    | _ => none
  | _ => none

/-- One step of the running server; `none` when the step is not enabled in the
state.  A send of a connection handler on one of the three channels (server.go
74, 75, 85) completes only while the worker reading that channel stands at its
receive, and hands it the value. -/
def step (s : System) : Event → Option System
  | Event.handlerRegister c =>
    if s.conn = ConnPC.recv ∧ s.r.register.isSome then
      some { s with conn := ConnPC.lock c }
    else none
  | Event.handlerUnregister c =>
    if s.disc = DiscPC.recv ∧ s.r.unregister.isSome then
      some { s with disc := DiscPC.lock c }
    else none
  | Event.handlerPublish message =>
    if s.bcast = BcastPC.recv ∧ s.r.messages.isSome then
      some { s with bcast := BcastPC.lock message }
    else none
  | Event.conn => connectionHandlerStep s
  | Event.disc => disconnectionHandlerStep s
  | Event.bcastLock ord => messageBroadcastHandlerStep s (Event.bcastLock ord)
  | Event.bcastWrite err => messageBroadcastHandlerStep s (Event.bcastWrite err)
  | Event.bcastUnregister => messageBroadcastHandlerStep s Event.bcastUnregister
  | Event.bcastUnlock => messageBroadcastHandlerStep s Event.bcastUnlock

/-- The state after a schedule of steps, `none` when one of them is not
enabled. -/
def run (s : System) : List Event → Option System
  | [] => some s
  | e :: es => (step s e).bind (fun s1 => run s1 es)

/-! ## System layer: one connection handler next to the workers

The function `handleWebSocketConnectionRequest` runs once per accepted request,
in a goroutine of its own.  Its three channel sends are the steps
`handlerRegister`, `handlerUnregister` and `handlerPublish` of the server: each
completes only while the worker reading the channel stands at its receive, and
until then the handler stays at the send. -/

/-- What a connection handler has done so far, in program order: the sends
that have completed and the transport close. -/
inductive Action where
  /-- The send `router.register <- client` (line 74) has completed. -/
  | register (c : client)
  /-- The send `router.messages <- message` (line 85) has completed. -/
  | publish (message : Bytes)
  /-- The deferred send `router.unregister <- client` (line 75) has completed. -/
  | unregister (c : client)
  /-- The deferred call `connection.Close()` (line 63) has been made. -/
  | close (connection : Conn)
deriving DecidableEq, Repr

/-- Where `handleWebSocketConnectionRequest` stands. -/
inductive HandlerPC where
  /-- Line 58: next is `ws.Upgrade`. -/
  | upgrade
  /-- Line 66: upgraded, `Close` deferred, next is the read of the name. -/
  | readName (connection : Conn)
  /-- Line 74: next is the send of `c` on `router.register`. -/
  | sendRegister (c : client)
  /-- Line 79: registered, the unregister request deferred, next is a read. -/
  | read (c : client)
  /-- Line 85: next is the send of `message` on `router.messages`. -/
  | sendMessage (c : client) (message : Bytes)
  /-- Line 75, run when the function returns: next is the deferred send of `c`
  on `router.unregister`. -/
  | sendUnregister (c : client)
  /-- Line 63, run when the function returns: next is the deferred
  `connection.Close()`. -/
  | close (connection : Conn)
  /-- The function has returned. -/
  | returned
deriving DecidableEq, Repr

/-- One running call of `handleWebSocketConnectionRequest`. -/
structure Handler where
  pc : HandlerPC
  trace : List Action
deriving DecidableEq, Repr

/-- The steps of a connection handler. -/
inductive HandlerEvent where
  /-- The call `ws.Upgrade` returns: `some connection`, or `none` for an error. -/
  | upgrade (result : Option Conn)
  /-- The call `connection.ReadMessage` returns: `some payload`, or `none` for
  an error. -/
  | read (result : Option Bytes)
  /-- The channel send the handler stands at completes. -/
  | send
  /-- The deferred `connection.Close()`. -/
  | close
deriving DecidableEq, Repr

/-- The handler of a request that has just been accepted (server.go 173-175). -/
def accepted : Handler := { pc := HandlerPC.upgrade, trace := [] }

/-- The function `handleWebSocketConnectionRequest` (server.go 56-87), one
statement at a time, next to the server state `s`; `none` when the step is not
enabled: a send completes only as the step of the server that receives it.
When the function returns, the deferred calls run in reverse order of their
`defer` statements: the unregister send, then `Close`. -/
def handleWebSocketConnectionRequest (s : System) (h : Handler) :
    HandlerEvent → Option (System × Handler)
  | HandlerEvent.upgrade result =>
    match h.pc with
    | HandlerPC.upgrade =>
      match result with
      | none => some (s, { h with pc := HandlerPC.returned })
      | some connection => some (s, { h with pc := HandlerPC.readName connection })
    | _ => none
  | HandlerEvent.read result =>
    match h.pc with
    | HandlerPC.readName connection =>
      match result with
      | none => some (s, { h with pc := HandlerPC.close connection })
      | some name =>
        some (s, { h with pc := HandlerPC.sendRegister (newClient name connection) })
    | HandlerPC.read c =>
      match result with
      | none => some (s, { h with pc := HandlerPC.sendUnregister c })
      | some message => some (s, { h with pc := HandlerPC.sendMessage c message })
    | _ => none
  | HandlerEvent.send =>
    match h.pc with
    | HandlerPC.sendRegister c =>
      (step s (Event.handlerRegister c)).map (fun s1 =>
        (s1, { pc := HandlerPC.read c, trace := h.trace ++ [Action.register c] }))
    | HandlerPC.sendMessage c message =>
      (step s (Event.handlerPublish message)).map (fun s1 =>
        (s1, { pc := HandlerPC.read c, trace := h.trace ++ [Action.publish message] }))
    | HandlerPC.sendUnregister c =>
      (step s (Event.handlerUnregister c)).map (fun s1 =>
        (s1, { pc := HandlerPC.close c.connection,
               trace := h.trace ++ [Action.unregister c] }))
    | _ => none
  | HandlerEvent.close =>
    match h.pc with
    | HandlerPC.close connection =>
      some (s, { pc := HandlerPC.returned, trace := h.trace ++ [Action.close connection] })
    | _ => none

/-- A step of the server together with one connection handler: a step of the
server (a worker, or a send of another handler), or a step of this handler. -/
inductive Move where
  | server (e : Event)
  | handler (e : HandlerEvent)
deriving DecidableEq, Repr

/-- One move of the server with the handler; `none` when it is not enabled. -/
def move (st : System × Handler) : Move → Option (System × Handler)
  | Move.server e => (step st.1 e).map (fun s1 => (s1, st.2))
  | Move.handler e => handleWebSocketConnectionRequest st.1 st.2 e

/-- The state after a schedule of moves, `none` when one of them is not
enabled. -/
def moves (st : System × Handler) : List Move → Option (System × Handler)
  | [] => some st
  | m :: ms => (move st m).bind (fun st1 => moves st1 ms)

/-- The clients whose `router.register <- client` completes in a schedule, in
the order of completion. -/
def registered : List Event → List client
  | [] => []
  | Event.handlerRegister c :: es => c :: registered es
  | _ :: es => registered es

/-- Whether a step is a completed send on `router.unregister`. -/
def isUnregister : Event → Bool
  | Event.handlerUnregister _ => true
  | Event.bcastUnregister => true
  | _ => false

/-- A worker position of `connectionHandler` outside the critical section. -/
def ConnPC.outside : ConnPC → Bool
  | ConnPC.recv => true
  | ConnPC.lock _ => true
  | _ => false

/-- The client `connectionHandler` has received and not yet stored. -/
def ConnPC.pending : ConnPC → List client
  | ConnPC.lock c => [c]
  | ConnPC.store c => [c]
  | _ => []

/-- A worker position of `disconnectionHandler` outside the critical section. -/
def DiscPC.outside : DiscPC → Bool
  | DiscPC.recv => true
  | DiscPC.lock _ => true
  | _ => false

/-- A worker position of `messageBroadcastHandler` outside the critical
section. -/
def BcastPC.outside : BcastPC → Bool
  | BcastPC.recv => true
  | BcastPC.lock _ => true
  | _ => false

/-- The number of workers between their `Lock` and their `Unlock`. -/
def inCritical (s : System) : Nat :=
  (if s.conn.outside then 0 else 1) + (if s.disc.outside then 0 else 1) +
    (if s.bcast.outside then 0 else 1)

/-- Mutual exclusion: the mutex is locked exactly when one worker is between
its `Lock` and its `Unlock`, and no two workers ever are. -/
def MutualExclusion (s : System) : Prop :=
  inCritical s = if s.r.mutex then 1 else 0

/-- A state in which the broadcast worker, holding the mutex, stands at its
send on `router.unregister` while the disconnection worker has left its
receive and stands at `Lock`. -/
def WaitOnEachOther (s : System) : Prop :=
  (∃ message c todo, s.bcast = BcastPC.send message c todo) ∧
  (∃ c, s.disc = DiscPC.lock c) ∧ s.r.mutex = true ∧ s.conn.outside = true

/-- Every register request received so far is either stored in
`router.clients`, under the name of its client, or is the one
`connectionHandler` has received and not yet stored; no unregister request has
been received. -/
def StoredOrPending (s : System) (regs : List client) : Prop :=
  s.disc = DiscPC.recv ∧
  ∃ m, s.r.clients = some m ∧ (∀ e ∈ m, e.1 = e.2.name) ∧
    (m.map Prod.snd ++ s.conn.pending).Perm regs

/-- The broadcast worker is inside the pass for `message` over the iteration
order `ord`, entered when the history of writes was `before`: it has visited a
front part of `ord`, and the writes made since are one per visited entry, to
the handle of the entry and with the bytes `message`. -/
def InPass (s : System) (message : Bytes) (ord : ClientMap) (before : List WriteCall) : Prop :=
  ∃ visited todo ws, ord = visited ++ todo ∧ s.writes = before ++ ws ∧
    ws.map (fun w => (w.c, w.message)) = visited.map (fun e => (e.2, message)) ∧
    (s.bcast = BcastPC.range message todo ∨ ∃ c, s.bcast = BcastPC.send message c todo)

/-- The broadcast worker is inside a pass for `message` that had the entries
of `c1`, `c2` and then `todo` still to visit when the history of writes was
`before` and the registry was `cl`; it holds the mutex, and every write made
since has failed.  The four cases: before the write to `c1`; at the send of
`c1` on `router.unregister`; after that send, before the write to `c2`; at the
send of `c2` on `router.unregister`. -/
def FailingPass (s : System) (message : Bytes) (k1 : GoString) (c1 : client) (k2 : GoString)
    (c2 : client) (todo : ClientMap) (before : List WriteCall) (cl : Option ClientMap) : Prop :=
  s.r.mutex = true ∧ s.conn.outside = true ∧ s.r.clients = cl ∧
  ((s.bcast = BcastPC.range message ((k1, c1) :: (k2, c2) :: todo) ∧
      (s.disc = DiscPC.recv ∨ ∃ x, s.disc = DiscPC.lock x) ∧ s.writes = before) ∨
   (s.bcast = BcastPC.send message c1 ((k2, c2) :: todo) ∧
      (s.disc = DiscPC.recv ∨ ∃ x, s.disc = DiscPC.lock x) ∧
      s.writes = before ++ [{ c := c1, message := message, err := true }]) ∨
   (s.bcast = BcastPC.range message ((k2, c2) :: todo) ∧ (∃ x, s.disc = DiscPC.lock x) ∧
      s.writes = before ++ [{ c := c1, message := message, err := true }]) ∨
   (s.bcast = BcastPC.send message c2 todo ∧ (∃ x, s.disc = DiscPC.lock x) ∧
      s.writes = before ++ [{ c := c1, message := message, err := true },
                            { c := c2, message := message, err := true }]))

/-- The schedule of a pass over `n` entries in which no `WriteMessage` call
returns an error: `n` writes, then the unlock. -/
def nominalPass (n : Nat) : List Event :=
  List.replicate n (Event.bcastWrite false) ++ [Event.bcastUnlock]

/-! ## Concrete clients, messages and states used in the scenarios -/

/-- Client named alice on connection 1. -/
def alice : client := newClient (lit "alice") 1

/-- Client named bob on connection 2. -/
def bob : client := newClient (lit "bob") 2

/-- Client named carol on connection 3. -/
def carol : client := newClient (lit "carol") 3

/-- A second client named alice, on connection 4. -/
def alice2 : client := newClient (lit "alice") 4

/-- The payload hello. -/
def hello : Bytes := lit "hello"

/-- The payload world. -/
def world : Bytes := lit "world"

/-- The router after alice and bob have been registered. -/
def aliceBobRouter : router :=
  { newRouter with clients := some [(bob.name, bob), (alice.name, alice)] }

/-- The router in which the second client named alice has replaced the first. -/
def alice2Router : router :=
  { newRouter with clients := some [(alice2.name, alice2)] }

/-- Schedule: alice and bob register and are stored, hello is published, the
fan-out visits alice then bob, and both `WriteMessage` calls fail. -/
def twoFailures : List Event :=
  [Event.handlerRegister alice, Event.conn, Event.conn, Event.conn,
   Event.handlerRegister bob, Event.conn, Event.conn, Event.conn,
   Event.handlerPublish hello,
   Event.bcastLock [(alice.name, alice), (bob.name, bob)],
   Event.bcastWrite true, Event.bcastUnregister, Event.bcastWrite true]

/-- The state reached by `twoFailures`: the broadcast worker holds the mutex
and stands at the send of bob on `router.unregister`, the disconnection worker
has received alice and stands at `Lock`. -/
def twoFailuresState : System :=
  { r := setMutex aliceBobRouter true
    conn := ConnPC.recv
    disc := DiscPC.lock alice
    bcast := BcastPC.send hello bob []
    writes := [{ c := alice, message := hello, err := true },
               { c := bob, message := hello, err := true }] }

/-- Schedule: alice and bob register and are stored, hello is published and
the fan-out starts; the handler of alice ends and its deferred unregister
request is received; then the `WriteMessage` call on alice fails. -/
def oneFailure : List Event :=
  [Event.handlerRegister alice, Event.conn, Event.conn, Event.conn,
   Event.handlerRegister bob, Event.conn, Event.conn, Event.conn,
   Event.handlerPublish hello,
   Event.bcastLock [(alice.name, alice), (bob.name, bob)],
   Event.handlerUnregister alice,
   Event.bcastWrite true]

/-- The state reached by `oneFailure`. -/
def oneFailureState : System :=
  { r := setMutex aliceBobRouter true
    conn := ConnPC.recv
    disc := DiscPC.lock alice
    bcast := BcastPC.send hello alice [(bob.name, bob)]
    writes := [{ c := alice, message := hello, err := true }] }

/-- The router after alice, bob and carol have been registered. -/
def aliceBobCarolRouter : router :=
  { newRouter with
    clients := some [(carol.name, carol), (bob.name, bob), (alice.name, alice)] }

/-- Schedule: alice, bob and carol register and are stored, hello is
published, and the broadcast worker locks the mutex, the range loop taking the
order alice, bob, carol. -/
def threeClientsLock : List Event :=
  [Event.handlerRegister alice, Event.conn, Event.conn, Event.conn,
   Event.handlerRegister bob, Event.conn, Event.conn, Event.conn,
   Event.handlerRegister carol, Event.conn, Event.conn, Event.conn,
   Event.handlerPublish hello,
   Event.bcastLock [(alice.name, alice), (bob.name, bob), (carol.name, carol)]]

/-- The state reached by `threeClientsLock`: the pass for hello has begun. -/
def threeClientsLocked : System :=
  { r := setMutex aliceBobCarolRouter true
    conn := ConnPC.recv
    disc := DiscPC.recv
    bcast := BcastPC.range hello [(alice.name, alice), (bob.name, bob), (carol.name, carol)]
    writes := [] }

/-- Schedule: after `threeClientsLock`, the `WriteMessage` calls on alice and
on bob fail. -/
def threeClientsTwoFailures : List Event :=
  threeClientsLock ++ [Event.bcastWrite true, Event.bcastUnregister, Event.bcastWrite true]

/-- The state reached by `threeClientsTwoFailures`: carol is still to be
visited. -/
def threeClientsState : System :=
  { r := setMutex aliceBobCarolRouter true
    conn := ConnPC.recv
    disc := DiscPC.lock alice
    bcast := BcastPC.send hello bob [(carol.name, carol)]
    writes := [{ c := alice, message := hello, err := true },
               { c := bob, message := hello, err := true }] }

/-- A second client named carol, on connection 5. -/
def carol2 : client := newClient (lit "carol") 5

/-- The router after alice, bob, carol and then the second carol have been
registered: the second carol has replaced the first. -/
def overwriteRouter : router :=
  { newRouter with
    clients := some [(carol2.name, carol2), (bob.name, bob), (alice.name, alice)] }

/-- Schedule: alice, bob, carol and then the second carol register and are
stored, hello is published, and the broadcast worker locks the mutex, the range
loop taking the order alice, bob, second carol. -/
def overwriteLock : List Event :=
  [Event.handlerRegister alice, Event.conn, Event.conn, Event.conn,
   Event.handlerRegister bob, Event.conn, Event.conn, Event.conn,
   Event.handlerRegister carol, Event.conn, Event.conn, Event.conn,
   Event.handlerRegister carol2, Event.conn, Event.conn, Event.conn,
   Event.handlerPublish hello,
   Event.bcastLock [(alice.name, alice), (bob.name, bob), (carol2.name, carol2)]]

/-- The state reached by `overwriteLock`: the pass for hello has begun. -/
def overwriteLocked : System :=
  { r := setMutex overwriteRouter true
    conn := ConnPC.recv
    disc := DiscPC.recv
    bcast := BcastPC.range hello [(alice.name, alice), (bob.name, bob), (carol2.name, carol2)]
    writes := [] }

/-- Schedule: after `overwriteLock`, the `WriteMessage` calls on alice and on
bob fail. -/
def overwriteTwoFailures : List Event :=
  overwriteLock ++ [Event.bcastWrite true, Event.bcastUnregister, Event.bcastWrite true]

/-- The state reached by `overwriteTwoFailures`: the second carol is still to
be visited. -/
def overwriteState : System :=
  { r := setMutex overwriteRouter true
    conn := ConnPC.recv
    disc := DiscPC.lock alice
    bcast := BcastPC.send hello bob [(carol2.name, carol2)]
    writes := [{ c := alice, message := hello, err := true },
               { c := bob, message := hello, err := true }] }

/-- Schedule of the server with the handler of bob's connection (connection
2), whose read results are the name bob and then an error.  The handler
registers bob; alice is registered by her own handler; hello is published; the
pass visits alice then bob and both writes fail; then the read on bob's
connection fails. -/
def bobReadFails : List Move :=
  [Move.handler (HandlerEvent.upgrade (some 2)),
   Move.handler (HandlerEvent.read (some (lit "bob"))),
   Move.server (Event.handlerRegister alice),
   Move.server Event.conn, Move.server Event.conn, Move.server Event.conn,
   Move.handler HandlerEvent.send,
   Move.server Event.conn, Move.server Event.conn, Move.server Event.conn,
   Move.server (Event.handlerPublish hello),
   Move.server (Event.bcastLock [(alice.name, alice), (bob.name, bob)]),
   Move.server (Event.bcastWrite true), Move.server Event.bcastUnregister,
   Move.server (Event.bcastWrite true),
   Move.handler (HandlerEvent.read none)]

/-- The handler of bob after `bobReadFails`: registered, at its deferred send
on `router.unregister`. -/
def bobAtUnregister : Handler :=
  { pc := HandlerPC.sendUnregister bob, trace := [Action.register bob] }

/-- Schedule of the server with the handler of bob's connection when nothing
fails but the last read: bob registers and is stored, sends hello, which the
pass writes back to bob, then the read fails, bob is unregistered and the
connection closed. -/
def bobSession : List Move :=
  [Move.handler (HandlerEvent.upgrade (some 2)),
   Move.handler (HandlerEvent.read (some (lit "bob"))),
   Move.handler HandlerEvent.send,
   Move.server Event.conn, Move.server Event.conn, Move.server Event.conn,
   Move.handler (HandlerEvent.read (some hello)),
   Move.handler HandlerEvent.send,
   Move.server (Event.bcastLock [(bob.name, bob)]),
   Move.server (Event.bcastWrite false), Move.server Event.bcastUnlock,
   Move.handler (HandlerEvent.read none),
   Move.handler HandlerEvent.send,
   Move.server Event.disc, Move.server Event.disc, Move.server Event.disc,
   Move.handler HandlerEvent.close]

/-- Schedule: the register request of alice completes, hello is published,
and the broadcast worker runs its whole pass before `connectionHandler` locks
the mutex. -/
def publishOvertakes : List Event :=
  [Event.handlerRegister alice, Event.handlerPublish hello,
   Event.bcastLock [], Event.bcastUnlock]

/-- Schedule: alice and bob register, hello is published, and both
registrations are stored before the broadcast worker locks the mutex. -/
def bothStored : List Event :=
  [Event.handlerRegister alice, Event.conn, Event.conn, Event.conn,
   Event.handlerRegister bob, Event.handlerPublish hello,
   Event.conn, Event.conn, Event.conn]

/-- The state reached by `bothStored`. -/
def bothStoredState : System :=
  { r := aliceBobRouter
    conn := ConnPC.recv
    disc := DiscPC.recv
    bcast := BcastPC.lock hello
    writes := [] }

end Relay

/-! ## Function layer: client.go -/

namespace Client

open Relay (GoString Bytes lit)

/-- The variable behind one defined command-line flag. -/
structure Flag where
  name : GoString
  value : GoString
deriving DecidableEq, Repr

/-- The flags defined so far (`flag.CommandLine`).  A `*string` returned by
`flag.String` is the position of its flag in this list. -/
abbrev FlagSet := List Flag

/-- Modelled from the Go standard library: `flag.String(name, value, usage)`
defines a flag whose variable holds the default `value` and returns the pointer
to that variable. -/
def flagString (fs : FlagSet) (name value : GoString) : FlagSet × Nat :=
  (fs ++ [{ name := name, value := value }], fs.length)

/-- Dereference of a `*string` returned by `flag.String`. -/
def deref (fs : FlagSet) (p : Nat) : GoString :=
  match fs.get? p with
  | some f => f.value
  | none => []

/-- Assignment of `value` to the variable of the flag called `name`; `none`
when no such flag is defined. -/
def flagSet (fs : FlagSet) (name value : GoString) : Option FlagSet :=
  if fs.any (fun f => decide (f.name = name)) then
    some (fs.map (fun f => if f.name = name then { f with value := value } else f))
  else none

/-- Modelled from the Go standard library: `flag.Parse()` on the command line
given as its list of `-name value` pairs: each flag supplied is stored in the
variable of that flag; `none` when a flag is not defined (the program exits). -/
def flagParse (fs : FlagSet) : List (GoString × GoString) → Option FlagSet
  | [] => some fs
  | (name, value) :: rest => (flagSet fs name value).bind (fun fs1 => flagParse fs1 rest)

/-- The package variables of client.go together with the flag variables. -/
structure Globals where
  host : GoString
  name : GoString
  flags : FlagSet
deriving DecidableEq, Repr

/-- The function `init` (client.go 26-32): each flag is defined and the
pointer that `flag.String` returns is dereferenced at once. -/
def init : Globals :=
  let defHost := flagString [] (lit "host") (lit "localhost:8080")
  let host := deref defHost.1 defHost.2
  let defName := flagString defHost.1 (lit "name") (lit "anonymous")
  let name := deref defName.1 defName.2
  { host := host, name := name, flags := defName.1 }

/-- The package variables after `flag.Parse()` in `main` (client.go 74):
`Parse` writes the flag variables, the package variables are not assigned. -/
def afterParse (args : List (GoString × GoString)) : Option Globals :=
  (flagParse init.flags args).map (fun fs => { init with flags := fs })

/-- The frame `main` sends first (client.go 94): `[]byte(name)`. -/
def firstFrame (g : Globals) : Bytes := g.name

/-- A Go `int` after an increment: wrapped to 64 bits, two's complement. -/
def wrapInt64 (i : Int) : Int := (i + 2 ^ 63) % 2 ^ 64 - 2 ^ 63

/-- The verb `%d` of `fmt.Sprintf` on an `int`. -/
def formatInt (i : Int) : GoString :=
  let digits : GoString := (Nat.toDigits 10 i.natAbs).map (fun c => Fin.ofNat c.toNat)
  if i < 0 then lit "-" ++ digits else digits

/-- The call `fmt.Sprintf("%s: %d", name, tickCount)` (client.go 63). -/
def sprintfNameCount (name : GoString) (tickCount : Int) : GoString :=
  name ++ lit ": " ++ formatInt tickCount

/-- The loop of `outgoingMessageHandler` (client.go 62-70) from the current
`tickCount`: one message per tick, `errs` the results of the successive
`WriteMessage` calls (`true`: an error, the function returns). -/
def outgoingLoop (name : GoString) : Int → List Bool → List Bytes
  | _, [] => []
  | tickCount, err :: rest =>
    sprintfNameCount name tickCount ::
      (if err then [] else outgoingLoop name (wrapInt64 (tickCount + 1)) rest)

/-- The function `outgoingMessageHandler` (client.go 56-71): the messages it
passes to `WriteMessage`, the counter starting at 1. -/
def outgoingMessageHandler (g : Globals) (errs : List Bool) : List Bytes :=
  outgoingLoop g.name 1 errs

/-- The command line `-name alice`. -/
def nameAlice : List (GoString × GoString) := [(lit "name", lit "alice")]

end Client

/-! ## Theorems: the registry -/

namespace Relay

theorem mem_mapDelete (m : ClientMap) (k : GoString) (e : GoString × client) :
    e ∈ mapDelete m k ↔ e ∈ m ∧ e.1 ≠ k := by
  simp [mapDelete]

theorem mem_mapStore (m : ClientMap) (k : GoString) (v : client) (e : GoString × client) :
    e ∈ mapStore m k v ↔ e = (k, v) ∨ (e ∈ m ∧ e.1 ≠ k) := by
  simp [mapStore]

theorem mapDelete_of_not_mem (m : ClientMap) (k : GoString) (h : k ∉ m.map Prod.fst) :
    mapDelete m k = m := by
  unfold mapDelete
  rw [List.filter_eq_self]
  intro e he
  have : e.1 ≠ k := fun hk => h (hk ▸ List.mem_map_of_mem Prod.fst he)
  simpa using this

theorem mapDelete_mapDelete (m : ClientMap) (k : GoString) :
    mapDelete (mapDelete m k) k = mapDelete m k := by
  simp [mapDelete, List.filter_filter]

theorem find_filter_of_imp {α : Type} (p q : α → Bool) (hpq : ∀ x, p x = true → q x = true)
    (l : List α) : (l.filter q).find? p = l.find? p := by
  induction l with
  | nil => rfl
  | cons x l ih =>
    by_cases hq : q x = true
    · rw [List.filter_cons_of_pos hq, List.find?_cons, List.find?_cons, ih]
    · have hp : p x = false := by
        cases hpx : p x
        · rfl
        · exact absurd (hpq x hpx) hq
      rw [List.filter_cons_of_neg hq, List.find?_cons, hp, ih]

theorem mapLookup_mapDelete_ne (m : ClientMap) (k j : GoString) (h : j ≠ k) :
    mapLookup (mapDelete m k) j = mapLookup m j := by
  unfold mapLookup mapDelete
  rw [find_filter_of_imp]
  intro x hx
  have hxj : x.1 = j := by simpa using hx
  have : x.1 ≠ k := hxj ▸ h
  simpa using this

theorem mapLookup_mapDelete_self (m : ClientMap) (k : GoString) :
    mapLookup (mapDelete m k) k = none := by
  unfold mapLookup mapDelete
  simp [List.find?_eq_none]

theorem mapLookup_mapStore_self (m : ClientMap) (k : GoString) (v : client) :
    mapLookup (mapStore m k v) k = some v := by
  simp [mapLookup, mapStore]

theorem mapLookup_mapStore_ne (m : ClientMap) (k j : GoString) (v : client) (h : j ≠ k) :
    mapLookup (mapStore m k v) j = mapLookup m j := by
  have hkj : ¬ k = j := fun hkj => h hkj.symm
  have := mapLookup_mapDelete_ne m k j h
  unfold mapLookup mapStore mapDelete at *
  simpa [List.find?_cons, hkj] using this

theorem RegistryOK.mapDelete {m : ClientMap} (h : RegistryOK m) (k : GoString) :
    RegistryOK (mapDelete m k) := by
  refine ⟨?_, fun e he => h.2 e ((mem_mapDelete m k e).1 he).1⟩
  exact (h.1.sublist ((List.filter_sublist m).map Prod.fst))

theorem RegistryOK.mapStore {m : ClientMap} (h : RegistryOK m) (c : client) :
    RegistryOK (mapStore m c.name c) := by
  have hd := h.mapDelete c.name
  refine ⟨?_, ?_⟩
  · show ((c.name, c) :: Relay.mapDelete m c.name |>.map Prod.fst).Nodup
    rw [List.map_cons, List.nodup_cons]
    refine ⟨?_, hd.1⟩
    intro hmem
    obtain ⟨e, he, hk⟩ := List.mem_map.1 hmem
    exact ((mem_mapDelete m c.name e).1 he).2 hk
  · intro e he
    rcases (mem_mapStore m c.name c e).1 he with rfl | ⟨hm, _⟩
    · rfl
    · exact h.2 e hm

theorem RegistryOK.nodup_handles {m : ClientMap} (h : RegistryOK m) :
    (m.map Prod.snd).Nodup := by
  have hk : m.map Prod.fst = (m.map Prod.snd).map client.name := by
    rw [List.map_map]
    exact List.map_congr_left (fun e he => (h.2 e he).symm)
  have := h.1
  rw [hk] at this
  exact List.Nodup.of_map _ this

/-! ## Theorems: the running server -/

theorem run_cons_eq_some {s s2 : System} {e : Event} {es : List Event} :
    run s (e :: es) = some s2 ↔ ∃ s1, step s e = some s1 ∧ run s1 es = some s2 := by
  rw [run]
  cases step s e <;> simp

theorem step_bcastLock {s s1 : System} {ord : ClientMap}
    (h : step s (Event.bcastLock ord) = some s1) :
    ∃ message, s.bcast = BcastPC.lock message ∧ s.r.mutex = false ∧
      ord.Perm (rangeClients s.r) ∧
      s1 = { s with r := setMutex s.r true, bcast := BcastPC.range message ord } := by
  simp only [step, connectionHandlerStep, disconnectionHandlerStep,
      messageBroadcastHandlerStep] at h
  split at h
  · rename_i message hb
    split at h
    · rename_i hc
      exact ⟨message, hb, hc.1, hc.2, (Option.some.inj h).symm⟩
    · exact absurd h (by simp)
  · exact absurd h (by simp)

theorem waitOnEachOther_step {s s1 : System} {e : Event} (hs : WaitOnEachOther s)
    (h : step s e = some s1) :
    WaitOnEachOther s1 ∧ s1.bcast = s.bcast ∧ s1.disc = s.disc ∧ s1.r = s.r ∧
      s1.writes = s.writes := by
  obtain ⟨⟨message, c, todo, hb⟩, ⟨d, hd⟩, hm, hc⟩ := hs
  cases e with
  | handlerRegister c1 =>
    simp only [step, connectionHandlerStep, disconnectionHandlerStep,
        messageBroadcastHandlerStep] at h
    split at h
    · cases h
      exact ⟨⟨⟨message, c, todo, hb⟩, ⟨d, hd⟩, hm, rfl⟩, rfl, rfl, rfl, rfl⟩
    · cases h
  | handlerUnregister c1 => simp [step, connectionHandlerStep, disconnectionHandlerStep,
      messageBroadcastHandlerStep, hd] at h
  | handlerPublish m1 => simp [step, connectionHandlerStep, disconnectionHandlerStep,
      messageBroadcastHandlerStep, hb] at h
  | conn =>
    cases hcn : s.conn with
    | recv => simp [step, connectionHandlerStep, disconnectionHandlerStep,
        messageBroadcastHandlerStep, hcn] at h
    | lock c1 => simp [step, connectionHandlerStep, disconnectionHandlerStep,
        messageBroadcastHandlerStep, hcn, hm] at h
    | store c1 => simp [hcn, ConnPC.outside] at hc
    | unlock => simp [hcn, ConnPC.outside] at hc
  | disc => simp [step, connectionHandlerStep, disconnectionHandlerStep,
      messageBroadcastHandlerStep, hd, hm] at h
  | bcastLock ord => simp [step, connectionHandlerStep, disconnectionHandlerStep,
      messageBroadcastHandlerStep, hb] at h
  | bcastWrite err => simp [step, connectionHandlerStep, disconnectionHandlerStep,
      messageBroadcastHandlerStep, hb] at h
  | bcastUnregister => simp [step, connectionHandlerStep, disconnectionHandlerStep,
      messageBroadcastHandlerStep, hb, hd] at h
  | bcastUnlock => simp [step, connectionHandlerStep, disconnectionHandlerStep,
      messageBroadcastHandlerStep, hb] at h

theorem waitOnEachOther_run {s : System} (hs : WaitOnEachOther s) (es : List Event) :
    ∀ s2, run s es = some s2 →
      s2.bcast = s.bcast ∧ s2.disc = s.disc ∧ s2.r = s.r ∧ s2.writes = s.writes := by
  induction es generalizing s with
  | nil =>
    intro s2 h
    have : s = s2 := by simpa [run] using h
    subst this
    exact ⟨rfl, rfl, rfl, rfl⟩
  | cons e es ih =>
    intro s2 h
    obtain ⟨s1, h1, h2⟩ := run_cons_eq_some.1 h
    obtain ⟨hw, hb, hd, hr, hwr⟩ := waitOnEachOther_step hs h1
    obtain ⟨hb2, hd2, hr2, hwr2⟩ := ih hw s2 h2
    exact ⟨hb2.trans hb, hd2.trans hd, hr2.trans hr, hwr2.trans hwr⟩

theorem registered_cons (e : Event) (es : List Event) :
    registered (e :: es) = registered [e] ++ registered es := by
  cases e <;> simp [registered]

theorem storedOrPending_step {s s1 : System} {e : Event} {regs : List client}
    (hinv : StoredOrPending s regs) (h : step s e = some s1) (hno : isUnregister e = false)
    (hnd : ((regs ++ registered [e]).map client.name).Nodup) :
    StoredOrPending s1 (regs ++ registered [e]) := by
  obtain ⟨hd, m, hm, hkey, hperm⟩ := hinv
  cases e with
  | handlerRegister c =>
    simp only [step, connectionHandlerStep, disconnectionHandlerStep,
        messageBroadcastHandlerStep] at h
    split at h
    · rename_i hc
      cases h
      refine ⟨hd, m, hm, hkey, ?_⟩
      simp only [hc.1, ConnPC.pending, List.append_nil] at hperm
      simpa [registered, ConnPC.pending] using hperm.append_right [c]
    · cases h
  | handlerUnregister c => simp [isUnregister] at hno
  | handlerPublish msg =>
    simp only [step, connectionHandlerStep, disconnectionHandlerStep,
        messageBroadcastHandlerStep] at h
    split at h
    · cases h
      exact ⟨hd, m, hm, hkey, by simpa [registered] using hperm⟩
    · cases h
  | conn =>
    simp only [registered, List.append_nil] at hnd ⊢
    cases hcn : s.conn with
    | recv => simp [step, connectionHandlerStep, disconnectionHandlerStep,
        messageBroadcastHandlerStep, hcn] at h
    | lock c =>
      simp only [step, connectionHandlerStep, disconnectionHandlerStep,
          messageBroadcastHandlerStep, hcn] at h
      split at h
      · cases h
      · cases h
        refine ⟨hd, m, hm, hkey, ?_⟩
        simpa [hcn, ConnPC.pending] using hperm
    | store c =>
      simp only [step, connectionHandlerStep, disconnectionHandlerStep,
          messageBroadcastHandlerStep, hcn, connectionHandler, hm] at h
      cases h
      simp only [hcn, ConnPC.pending] at hperm
      have hnd2 : ((m.map Prod.snd ++ [c]).map client.name).Nodup :=
        (hperm.map client.name).nodup_iff.2 hnd
      have hkeys : m.map Prod.fst = (m.map Prod.snd).map client.name := by
        rw [List.map_map]
        exact List.map_congr_left (fun e he => hkey e he)
      have hfresh : c.name ∉ m.map Prod.fst := by
        rw [hkeys]
        intro hin
        rw [List.map_append, List.nodup_append] at hnd2
        exact hnd2.2.2 hin (by simp)
      have hdel : mapDelete m c.name = m := mapDelete_of_not_mem m c.name hfresh
      refine ⟨hd, mapStore m c.name c, rfl, ?_, ?_⟩
      · intro e he
        rcases (mem_mapStore m c.name c e).1 he with rfl | ⟨hin, _⟩
        · rfl
        · exact hkey e hin
      · have hst : mapStore m c.name c = (c.name, c) :: m := by
          unfold mapStore; unfold mapDelete at hdel; rw [hdel]
        rw [hst]
        simp only [ConnPC.pending, List.append_nil, List.map_cons]
        exact (List.perm_append_singleton c (m.map Prod.snd)).symm.trans hperm
    | unlock =>
      simp only [step, connectionHandlerStep, disconnectionHandlerStep,
          messageBroadcastHandlerStep, hcn] at h
      cases h
      refine ⟨hd, m, hm, hkey, ?_⟩
      simpa [hcn, ConnPC.pending] using hperm
  | disc => simp [step, connectionHandlerStep, disconnectionHandlerStep,
      messageBroadcastHandlerStep, hd] at h
  | bcastLock ord =>
    simp only [registered, List.append_nil]
    obtain ⟨msg, _, _, _, hs1⟩ := step_bcastLock h
    subst hs1
    exact ⟨hd, m, hm, hkey, hperm⟩
  | bcastWrite err =>
    simp only [registered, List.append_nil]
    simp only [step, connectionHandlerStep, disconnectionHandlerStep,
        messageBroadcastHandlerStep] at h
    split at h
    · cases h
      exact ⟨hd, m, hm, hkey, hperm⟩
    · cases h
  | bcastUnregister => simp [isUnregister] at hno
  | bcastUnlock =>
    simp only [registered, List.append_nil]
    simp only [step, connectionHandlerStep, disconnectionHandlerStep,
        messageBroadcastHandlerStep] at h
    split at h
    · cases h
      exact ⟨hd, m, hm, hkey, hperm⟩
    · cases h

theorem storedOrPending_run (es : List Event) :
    ∀ (s s2 : System) (regs : List client), StoredOrPending s regs → run s es = some s2 →
      (∀ e ∈ es, isUnregister e = false) →
      ((regs ++ registered es).map client.name).Nodup →
      StoredOrPending s2 (regs ++ registered es) := by
  induction es with
  | nil =>
    intro s s2 regs hinv h _ _
    have : s = s2 := by simpa [run] using h
    subst this
    simpa [registered] using hinv
  | cons e es ih =>
    intro s s2 regs hinv h hno hnd
    obtain ⟨s1, h1, h2⟩ := run_cons_eq_some.1 h
    rw [registered_cons, ← List.append_assoc] at hnd ⊢
    have hnd1 : ((regs ++ registered [e]).map client.name).Nodup := by
      rw [List.map_append] at hnd
      exact (List.nodup_append.1 hnd).1
    exact ih s1 s2 _ (storedOrPending_step hinv h1 (hno e (List.mem_cons_self _ _)) hnd1) h2
      (fun e1 he1 => hno e1 (List.mem_cons_of_mem _ he1)) hnd

theorem inPass_step {s s1 : System} {e : Event} {message : Bytes} {ord : ClientMap}
    {before : List WriteCall} (hp : InPass s message ord before) (h : step s e = some s1)
    (he : e ≠ Event.bcastUnlock) : InPass s1 message ord before := by
  obtain ⟨visited, todo, ws, hord, hw, hmap, hb⟩ := hp
  cases e with
  | handlerRegister c =>
    simp only [step, connectionHandlerStep, disconnectionHandlerStep,
        messageBroadcastHandlerStep] at h
    split at h
    · cases h; exact ⟨visited, todo, ws, hord, hw, hmap, hb⟩
    · cases h
  | handlerUnregister c =>
    simp only [step, connectionHandlerStep, disconnectionHandlerStep,
        messageBroadcastHandlerStep] at h
    split at h
    · cases h; exact ⟨visited, todo, ws, hord, hw, hmap, hb⟩
    · cases h
  | handlerPublish msg =>
    rcases hb with hb | ⟨c, hb⟩ <;> simp [step, connectionHandlerStep, disconnectionHandlerStep,
        messageBroadcastHandlerStep, hb] at h
  | conn =>
    simp only [step, connectionHandlerStep, disconnectionHandlerStep,
        messageBroadcastHandlerStep] at h
    split at h
    · cases h
    · split at h
      · cases h
      · cases h; exact ⟨visited, todo, ws, hord, hw, hmap, hb⟩
    · split at h
      · cases h
      · cases h; exact ⟨visited, todo, ws, hord, hw, hmap, hb⟩
    · cases h; exact ⟨visited, todo, ws, hord, hw, hmap, hb⟩
  | disc =>
    simp only [step, connectionHandlerStep, disconnectionHandlerStep,
        messageBroadcastHandlerStep] at h
    split at h
    · cases h
    · split at h
      · cases h
      · cases h; exact ⟨visited, todo, ws, hord, hw, hmap, hb⟩
    · cases h; exact ⟨visited, todo, ws, hord, hw, hmap, hb⟩
    · cases h; exact ⟨visited, todo, ws, hord, hw, hmap, hb⟩
  | bcastLock ord1 =>
    obtain ⟨msg, hl, _⟩ := step_bcastLock h
    rcases hb with hb | ⟨c, hb⟩ <;> simp [hb] at hl
  | bcastWrite err =>
    rcases hb with hb | ⟨c, hb⟩
    · cases todo with
      | nil => simp [step, connectionHandlerStep, disconnectionHandlerStep,
          messageBroadcastHandlerStep, hb] at h
      | cons e1 todo1 =>
        obtain ⟨k, c⟩ := e1
        simp only [step, connectionHandlerStep, disconnectionHandlerStep,
            messageBroadcastHandlerStep, hb] at h
        cases h
        refine ⟨visited ++ [(k, c)], todo1,
          ws ++ [{ c := c, message := message, err := err }], ?_, ?_, ?_, ?_⟩
        · simp [hord]
        · simp [hw]
        · simp [hmap]
        · cases err
          · exact Or.inl rfl
          · exact Or.inr ⟨c, rfl⟩
    · simp [step, connectionHandlerStep, disconnectionHandlerStep,
        messageBroadcastHandlerStep, hb] at h
  | bcastUnregister =>
    rcases hb with hb | ⟨c, hb⟩
    · simp [step, connectionHandlerStep, disconnectionHandlerStep,
        messageBroadcastHandlerStep, hb] at h
    · simp only [step, connectionHandlerStep, disconnectionHandlerStep,
        messageBroadcastHandlerStep, hb] at h
      split at h
      · cases h; exact ⟨visited, todo, ws, hord, hw, hmap, Or.inl rfl⟩
      · cases h
  | bcastUnlock => exact absurd rfl he

theorem inPass_run (es : List Event) :
    ∀ (s s2 : System) (message : Bytes) (ord : ClientMap) (before : List WriteCall),
      InPass s message ord before → run s es = some s2 → Event.bcastUnlock ∉ es →
      InPass s2 message ord before := by
  induction es with
  | nil =>
    intro s s2 message ord before hp h _
    have : s = s2 := by simpa [run] using h
    subst this
    exact hp
  | cons e es ih =>
    intro s s2 message ord before hp h hno
    obtain ⟨s1, h1, h2⟩ := run_cons_eq_some.1 h
    have he : e ≠ Event.bcastUnlock := fun heq => hno (heq ▸ List.mem_cons_self _ _)
    exact ih s1 s2 message ord before (inPass_step hp h1 he) h2
      (fun hin => hno (List.mem_cons_of_mem _ hin))

theorem inPass_unlock {s s1 : System} {message : Bytes} {ord : ClientMap}
    {before : List WriteCall} (hp : InPass s message ord before)
    (h : step s Event.bcastUnlock = some s1) :
    ∃ ws, s1.writes = before ++ ws ∧
      ws.map (fun w => (w.c, w.message)) = ord.map (fun e => (e.2, message)) := by
  obtain ⟨visited, todo, ws, hord, hw, hmap, hb⟩ := hp
  rcases hb with hb | ⟨c, hb⟩
  · cases todo with
    | nil =>
      simp only [step, connectionHandlerStep, disconnectionHandlerStep,
          messageBroadcastHandlerStep, hb] at h
      cases h
      refine ⟨ws, hw, ?_⟩
      rw [hmap, hord, List.append_nil]
    | cons e1 todo1 => simp [step, connectionHandlerStep, disconnectionHandlerStep,
        messageBroadcastHandlerStep, hb] at h
  · simp [step, connectionHandlerStep, disconnectionHandlerStep,
      messageBroadcastHandlerStep, hb] at h

theorem pass_start {s s1 : System} {ord : ClientMap}
    (h : step s (Event.bcastLock ord) = some s1) :
    ∃ message, s.bcast = BcastPC.lock message ∧ ord.Perm (rangeClients s.r) ∧
      s1.bcast = BcastPC.range message ord ∧ InPass s1 message ord s.writes ∧
      s1.writes = s.writes := by
  obtain ⟨message, hb, _, hperm, hs1⟩ := step_bcastLock h
  subst hs1
  exact ⟨message, hb, hperm, rfl, ⟨[], ord, [], rfl, by simp, rfl, Or.inl rfl⟩, rfl⟩

theorem writes_handles {ws : List WriteCall} {l : ClientMap} {message : Bytes}
    (h : ws.map (fun w => (w.c, w.message)) = l.map (fun e => (e.2, message))) :
    ws.map WriteCall.c = l.map Prod.snd ∧ ∀ w ∈ ws, w.message = message := by
  constructor
  · have := congrArg (List.map Prod.fst) h
    simpa [List.map_map, Function.comp_def] using this
  · have := congrArg (List.map Prod.snd) h
    simp only [List.map_map, Function.comp_def] at this
    intro w hw
    have hmem : w.message ∈ ws.map (fun w => w.message) := List.mem_map_of_mem _ hw
    rw [this] at hmem
    obtain ⟨_, _, he⟩ := List.mem_map.1 hmem
    exact he.symm

theorem pass_completes (todo : ClientMap) :
    ∀ (s : System) (message : Bytes), s.bcast = BcastPC.range message todo →
      ∃ s3, run s (nominalPass todo.length) = some s3 ∧ s3.bcast = BcastPC.recv ∧
        s3.writes = s.writes ++
          todo.map (fun e => { c := e.2, message := message, err := false }) ∧
        s3.r = setMutex s.r false := by
  induction todo with
  | nil =>
    intro s message hb
    refine ⟨{ s with r := setMutex s.r false, bcast := BcastPC.recv }, ?_, rfl, by simp, rfl⟩
    simp [nominalPass, run, step, connectionHandlerStep, disconnectionHandlerStep,
      messageBroadcastHandlerStep, hb]
  | cons e todo ih =>
    intro s message hb
    obtain ⟨k, c⟩ := e
    obtain ⟨s3, h3, hb3, hw3, hr3⟩ := ih
      { s with
        writes := s.writes ++ [{ c := c, message := message, err := false }]
        bcast := BcastPC.range message todo } message rfl
    refine ⟨s3, ?_, hb3, by simpa using hw3, hr3⟩
    have hstep : step s (Event.bcastWrite false) = some { s with
        writes := s.writes ++ [{ c := c, message := message, err := false }]
        bcast := BcastPC.range message todo } := by
      simp [step, connectionHandlerStep, disconnectionHandlerStep, messageBroadcastHandlerStep, hb]
    have hn : nominalPass ((k, c) :: todo).length =
        Event.bcastWrite false :: nominalPass todo.length := by
      simp [nominalPass, List.replicate_succ]
    rw [hn]
    exact run_cons_eq_some.2 ⟨_, hstep, h3⟩

theorem mutualExclusion_step {s s1 : System} {e : Event} (hinv : MutualExclusion s)
    (h : step s e = some s1) : MutualExclusion s1 := by
  unfold MutualExclusion inCritical at *
  cases e with
  | handlerRegister c =>
    simp only [step] at h
    split at h
    · rename_i hc
      cases h
      simpa [hc.1, ConnPC.outside] using hinv
    · cases h
  | handlerUnregister c =>
    simp only [step] at h
    split at h
    · rename_i hc
      cases h
      simpa [hc.1, DiscPC.outside] using hinv
    · cases h
  | handlerPublish msg =>
    simp only [step] at h
    split at h
    · rename_i hc
      cases h
      simpa [hc.1, BcastPC.outside] using hinv
    · cases h
  | conn =>
    cases hcn : s.conn with
    | recv => simp [step, connectionHandlerStep, disconnectionHandlerStep,
        messageBroadcastHandlerStep, hcn] at h
    | lock c =>
      cases hmx : s.r.mutex with
      | true => simp [step, connectionHandlerStep, disconnectionHandlerStep,
          messageBroadcastHandlerStep, hcn, hmx] at h
      | false =>
        simp only [step, connectionHandlerStep, disconnectionHandlerStep,
            messageBroadcastHandlerStep, hcn, hmx] at h
        cases h
        revert hinv
        cases s.disc.outside <;> cases s.bcast.outside <;>
          simp [hcn, hmx, ConnPC.outside, setMutex]
    | store c =>
      simp only [step, connectionHandlerStep, disconnectionHandlerStep,
          messageBroadcastHandlerStep, hcn, connectionHandler] at h
      split at h
      · cases h
      · rename_i r hr
        split at hr
        · cases hr
        · cases hr
          cases h
          simpa [hcn, ConnPC.outside] using hinv
    | unlock =>
      simp only [step, connectionHandlerStep, disconnectionHandlerStep,
          messageBroadcastHandlerStep, hcn] at h
      cases h
      revert hinv
      cases s.r.mutex <;> cases s.disc.outside <;> cases s.bcast.outside <;>
        simp [hcn, ConnPC.outside, setMutex]
  | disc =>
    cases hdc : s.disc with
    | recv => simp [step, connectionHandlerStep, disconnectionHandlerStep,
        messageBroadcastHandlerStep, hdc] at h
    | lock c =>
      cases hmx : s.r.mutex with
      | true => simp [step, connectionHandlerStep, disconnectionHandlerStep,
          messageBroadcastHandlerStep, hdc, hmx] at h
      | false =>
        simp only [step, connectionHandlerStep, disconnectionHandlerStep,
            messageBroadcastHandlerStep, hdc, hmx] at h
        cases h
        revert hinv
        cases s.conn.outside <;> cases s.bcast.outside <;>
          simp [hdc, hmx, DiscPC.outside, setMutex]
    | delete c =>
      simp only [step, connectionHandlerStep, disconnectionHandlerStep,
          messageBroadcastHandlerStep, hdc] at h
      cases h
      simpa [hdc, DiscPC.outside, disconnectionHandler] using hinv
    | unlock =>
      simp only [step, connectionHandlerStep, disconnectionHandlerStep,
          messageBroadcastHandlerStep, hdc] at h
      cases h
      revert hinv
      cases s.r.mutex <;> cases s.conn.outside <;> cases s.bcast.outside <;>
        simp [hdc, DiscPC.outside, setMutex]
  | bcastLock ord =>
    obtain ⟨message, hb, hmx, _, hs1⟩ := step_bcastLock h
    subst hs1
    revert hinv
    cases s.conn.outside <;> cases s.disc.outside <;>
      simp [hb, hmx, BcastPC.outside, setMutex]
  | bcastWrite err =>
    simp only [step, connectionHandlerStep, disconnectionHandlerStep,
        messageBroadcastHandlerStep] at h
    split at h
    · rename_i message k c todo hb
      cases h
      cases err <;> simpa [hb, BcastPC.outside] using hinv
    · cases h
  | bcastUnregister =>
    simp only [step, connectionHandlerStep, disconnectionHandlerStep,
        messageBroadcastHandlerStep] at h
    split at h
    · rename_i message c todo hb
      split at h
      · rename_i hc
        cases h
        simpa [hb, hc.1, BcastPC.outside, DiscPC.outside] using hinv
      · cases h
    · cases h
  | bcastUnlock =>
    simp only [step, connectionHandlerStep, disconnectionHandlerStep,
        messageBroadcastHandlerStep] at h
    split at h
    · rename_i message hb
      cases h
      revert hinv
      cases s.r.mutex <;> cases s.conn.outside <;> cases s.disc.outside <;>
        simp [hb, BcastPC.outside, setMutex]
    · cases h

theorem mutualExclusion_run (es : List Event) :
    ∀ (s s2 : System), MutualExclusion s → run s es = some s2 → MutualExclusion s2 := by
  induction es with
  | nil =>
    intro s s2 hinv h
    have : s = s2 := by simpa [run] using h
    subst this
    exact hinv
  | cons e es ih =>
    intro s s2 hinv h
    obtain ⟨s1, h1, h2⟩ := run_cons_eq_some.1 h
    exact ih s1 s2 (mutualExclusion_step hinv h1) h2

/-- In every state the server reaches from the fresh router, the mutex is
locked exactly when one worker is inside its critical section: registry
mutation and the iteration of the broadcast worker never overlap. -/
theorem mutual_exclusion (es : List Event) (s : System)
    (h : run (start newRouter) es = some s) : MutualExclusion s :=
  mutualExclusion_run es (start newRouter) s (by unfold MutualExclusion; decide) h

theorem registryOK_step {s s1 : System} {e : Event} (hinv : RegistryOK (rangeClients s.r))
    (h : step s e = some s1) : RegistryOK (rangeClients s1.r) := by
  cases e with
  | handlerRegister c =>
    simp only [step] at h
    split at h
    · cases h; exact hinv
    · cases h
  | handlerUnregister c =>
    simp only [step] at h
    split at h
    · cases h; exact hinv
    · cases h
  | handlerPublish msg =>
    simp only [step] at h
    split at h
    · cases h; exact hinv
    · cases h
  | conn =>
    cases hcn : s.conn with
    | recv => simp [step, connectionHandlerStep, disconnectionHandlerStep, messageBroadcastHandlerStep, hcn] at h
    | lock c =>
      simp only [step, connectionHandlerStep, disconnectionHandlerStep, messageBroadcastHandlerStep, hcn] at h
      split at h
      · cases h
      · cases h; exact hinv
    | store c =>
      cases hcl : s.r.clients with
      | none => simp [step, connectionHandlerStep, disconnectionHandlerStep, messageBroadcastHandlerStep, hcn, connectionHandler, hcl] at h
      | some m =>
        simp only [step, connectionHandlerStep, disconnectionHandlerStep, messageBroadcastHandlerStep, hcn, connectionHandler, hcl] at h
        cases h
        have hm : RegistryOK m := by simpa [rangeClients, hcl] using hinv
        exact hm.mapStore c
    | unlock =>
      simp only [step, connectionHandlerStep, disconnectionHandlerStep, messageBroadcastHandlerStep, hcn] at h
      cases h; exact hinv
  | disc =>
    cases hdc : s.disc with
    | recv => simp [step, connectionHandlerStep, disconnectionHandlerStep, messageBroadcastHandlerStep, hdc] at h
    | lock c =>
      simp only [step, connectionHandlerStep, disconnectionHandlerStep, messageBroadcastHandlerStep, hdc] at h
      split at h
      · cases h
      · cases h; exact hinv
    | delete c =>
      simp only [step, connectionHandlerStep, disconnectionHandlerStep, messageBroadcastHandlerStep, hdc] at h
      cases h
      show RegistryOK (rangeClients (disconnectionHandler s.r c))
      cases hcl : s.r.clients with
      | none => simpa [rangeClients, disconnectionHandler, hcl] using hinv
      | some m =>
        have hm : RegistryOK m := by simpa [rangeClients, hcl] using hinv
        simpa [rangeClients, disconnectionHandler, hcl] using hm.mapDelete c.name
    | unlock =>
      simp only [step, connectionHandlerStep, disconnectionHandlerStep, messageBroadcastHandlerStep, hdc] at h
      cases h; exact hinv
  | bcastLock ord =>
    obtain ⟨_, _, _, _, hs1⟩ := step_bcastLock h
    subst hs1
    exact hinv
  | bcastWrite err =>
    simp only [step, connectionHandlerStep, disconnectionHandlerStep, messageBroadcastHandlerStep] at h
    split at h
    · cases h; exact hinv
    · cases h
  | bcastUnregister =>
    simp only [step, connectionHandlerStep, disconnectionHandlerStep, messageBroadcastHandlerStep] at h
    split at h
    · split at h
      · cases h; exact hinv
      · cases h
    · cases h
  | bcastUnlock =>
    simp only [step, connectionHandlerStep, disconnectionHandlerStep, messageBroadcastHandlerStep] at h
    split at h
    · cases h; exact hinv
    · cases h

theorem registryOK_run (es : List Event) :
    ∀ (s s2 : System), RegistryOK (rangeClients s.r) → run s es = some s2 →
      RegistryOK (rangeClients s2.r) := by
  induction es with
  | nil =>
    intro s s2 hinv h
    have : s = s2 := by simpa [run] using h
    subst this
    exact hinv
  | cons e es ih =>
    intro s s2 hinv h
    obtain ⟨s1, h1, h2⟩ := run_cons_eq_some.1 h
    exact ih s1 s2 (registryOK_step hinv h1) h2

/-- In every state the server reaches from the fresh router, the keys of
`router.clients` are distinct and every client is stored under its own name. -/
theorem registryOK_reachable (es : List Event) (s : System)
    (h : run (start newRouter) es = some s) : RegistryOK (rangeClients s.r) :=
  registryOK_run es (start newRouter) s (by decide) h

theorem failed_write_blocks {s : System} {message : Bytes} {k : GoString} {c : client}
    {todo : ClientMap} (hb : s.bcast = BcastPC.range message ((k, c) :: todo))
    (hd : ∃ x, s.disc = DiscPC.lock x) (hm : s.r.mutex = true) (hc : s.conn.outside = true) :
    ∃ s1, step s (Event.bcastWrite true) = some s1 ∧ WaitOnEachOther s1 ∧
      s1.writes = s.writes ++ [{ c := c, message := message, err := true }] := by
  refine ⟨{ s with
      writes := s.writes ++ [{ c := c, message := message, err := true }]
      bcast := BcastPC.send message c todo }, ?_, ⟨⟨message, c, todo, rfl⟩, hd, hm, hc⟩, rfl⟩
  simp [step, messageBroadcastHandlerStep, hb]

theorem failingPass_step {s s1 : System} {e : Event} {message : Bytes} {k1 k2 : GoString}
    {c1 c2 : client} {todo : ClientMap} {before : List WriteCall} {cl : Option ClientMap}
    (hp : FailingPass s message k1 c1 k2 c2 todo before cl) (h : step s e = some s1)
    (he : e ≠ Event.bcastWrite false) :
    FailingPass s1 message k1 c1 k2 c2 todo before cl := by
  obtain ⟨hm, hc, hcl, hph⟩ := hp
  cases e with
  | handlerRegister c =>
    simp only [step] at h
    split at h
    · cases h; exact ⟨hm, rfl, hcl, hph⟩
    · cases h
  | handlerUnregister c =>
    simp only [step] at h
    split at h
    · rename_i hd
      cases h
      refine ⟨hm, hc, hcl, ?_⟩
      rcases hph with ⟨hb, _, hw⟩ | ⟨hb, _, hw⟩ | ⟨hb, ⟨x, hx⟩, hw⟩ | ⟨hb, ⟨x, hx⟩, hw⟩
      · exact Or.inl ⟨hb, Or.inr ⟨c, rfl⟩, hw⟩
      · exact Or.inr (Or.inl ⟨hb, Or.inr ⟨c, rfl⟩, hw⟩)
      · rw [hx] at hd; exact absurd hd.1 (by simp)
      · rw [hx] at hd; exact absurd hd.1 (by simp)
    · cases h
  | handlerPublish msg =>
    rcases hph with ⟨hb, _⟩ | ⟨hb, _⟩ | ⟨hb, _⟩ | ⟨hb, _⟩ <;> simp [step, hb] at h
  | conn =>
    cases hcn : s.conn with
    | recv => simp [step, connectionHandlerStep, disconnectionHandlerStep,
        messageBroadcastHandlerStep, hcn] at h
    | lock c => simp [step, connectionHandlerStep, disconnectionHandlerStep,
        messageBroadcastHandlerStep, hcn, hm] at h
    | store c => simp [hcn, ConnPC.outside] at hc
    | unlock => simp [hcn, ConnPC.outside] at hc
  | disc =>
    have hd : s.disc = DiscPC.recv ∨ ∃ x, s.disc = DiscPC.lock x := by
      rcases hph with ⟨_, hd, _⟩ | ⟨_, hd, _⟩ | ⟨_, hd, _⟩ | ⟨_, hd, _⟩
      · exact hd
      · exact hd
      · exact Or.inr hd
      · exact Or.inr hd
    rcases hd with hd | ⟨x, hd⟩ <;> simp [step, connectionHandlerStep, disconnectionHandlerStep,
        messageBroadcastHandlerStep, hd, hm] at h
  | bcastLock ord =>
    rcases hph with ⟨hb, _⟩ | ⟨hb, _⟩ | ⟨hb, _⟩ | ⟨hb, _⟩ <;>
      simp [step, connectionHandlerStep, disconnectionHandlerStep, messageBroadcastHandlerStep, hb] at h
  | bcastWrite err =>
    cases err with
    | false => exact absurd rfl he
    | true =>
      rcases hph with ⟨hb, hd, hw⟩ | ⟨hb, _⟩ | ⟨hb, hd, hw⟩ | ⟨hb, _⟩
      · simp only [step, connectionHandlerStep, disconnectionHandlerStep,
          messageBroadcastHandlerStep, hb] at h
        cases h
        exact ⟨hm, hc, hcl, Or.inr (Or.inl ⟨rfl, hd, by simp [hw]⟩)⟩
      · simp [step, connectionHandlerStep, disconnectionHandlerStep,
          messageBroadcastHandlerStep, hb] at h
      · simp only [step, connectionHandlerStep, disconnectionHandlerStep,
          messageBroadcastHandlerStep, hb] at h
        cases h
        exact ⟨hm, hc, hcl, Or.inr (Or.inr (Or.inr ⟨rfl, hd, by simp [hw]⟩))⟩
      · simp [step, connectionHandlerStep, disconnectionHandlerStep,
          messageBroadcastHandlerStep, hb] at h
  | bcastUnregister =>
    rcases hph with ⟨hb, _⟩ | ⟨hb, _, hw⟩ | ⟨hb, _⟩ | ⟨hb, ⟨x, hx⟩, _⟩
    · simp [step, connectionHandlerStep, disconnectionHandlerStep,
        messageBroadcastHandlerStep, hb] at h
    · simp only [step, connectionHandlerStep, disconnectionHandlerStep,
        messageBroadcastHandlerStep, hb] at h
      split at h
      · cases h
        exact ⟨hm, hc, hcl, Or.inr (Or.inr (Or.inl ⟨rfl, ⟨c1, rfl⟩, hw⟩))⟩
      · cases h
    · simp [step, connectionHandlerStep, disconnectionHandlerStep,
        messageBroadcastHandlerStep, hb] at h
    · simp [step, connectionHandlerStep, disconnectionHandlerStep,
        messageBroadcastHandlerStep, hb, hx] at h
  | bcastUnlock =>
    rcases hph with ⟨hb, _⟩ | ⟨hb, _⟩ | ⟨hb, _⟩ | ⟨hb, _⟩ <;>
      simp [step, connectionHandlerStep, disconnectionHandlerStep, messageBroadcastHandlerStep, hb] at h

theorem failingPass_run (es : List Event) :
    ∀ (s s2 : System) (message : Bytes) (k1 k2 : GoString) (c1 c2 : client) (todo : ClientMap)
      (before : List WriteCall) (cl : Option ClientMap),
      FailingPass s message k1 c1 k2 c2 todo before cl → run s es = some s2 →
      Event.bcastWrite false ∉ es → FailingPass s2 message k1 c1 k2 c2 todo before cl := by
  induction es with
  | nil =>
    intro s s2 message k1 k2 c1 c2 todo before cl hp h _
    have : s = s2 := by simpa [run] using h
    subst this
    exact hp
  | cons e es ih =>
    intro s s2 message k1 k2 c1 c2 todo before cl hp h hno
    obtain ⟨s1, h1, h2⟩ := run_cons_eq_some.1 h
    have he : e ≠ Event.bcastWrite false := fun heq => hno (heq ▸ List.mem_cons_self _ _)
    exact ih s1 s2 message k1 k2 c1 c2 todo before cl (failingPass_step hp h1 he) h2
      (fun hin => hno (List.mem_cons_of_mem _ hin))

/-- For every registry, message and iteration order: once the broadcast worker
has locked the mutex for a pass with at least two entries, in every schedule in
which the writes of the pass fail, the pass never ends and never releases the
mutex, the registry stays as it was (no failed handle is removed), and no
write is made beyond the first two entries. -/
theorem two_failed_writes_block (s : System) (message : Bytes) (k1 k2 : GoString) (c1 c2 : client)
    (todo : ClientMap) (hb : s.bcast = BcastPC.range message ((k1, c1) :: (k2, c2) :: todo))
    (hm : s.r.mutex = true) (hc : s.conn.outside = true)
    (hd : s.disc = DiscPC.recv ∨ ∃ x, s.disc = DiscPC.lock x)
    (es : List Event) (s2 : System) (hrun : run s es = some s2)
    (hfail : Event.bcastWrite false ∉ es) :
    s2.r.mutex = true ∧ s2.bcast ≠ BcastPC.recv ∧ s2.r.clients = s.r.clients ∧
    ∃ ws, s2.writes = s.writes ++ ws ∧
      (ws = [] ∨ ws = [{ c := c1, message := message, err := true }] ∨
       ws = [{ c := c1, message := message, err := true },
             { c := c2, message := message, err := true }]) := by
  have hp : FailingPass s message k1 c1 k2 c2 todo s.writes s.r.clients :=
    ⟨hm, hc, rfl, Or.inl ⟨hb, hd, rfl⟩⟩
  obtain ⟨hm2, _, hcl2, hph⟩ :=
    failingPass_run es s s2 message k1 k2 c1 c2 todo s.writes s.r.clients hp hrun hfail
  refine ⟨hm2, ?_, hcl2, ?_⟩
  · rcases hph with ⟨hb2, _⟩ | ⟨hb2, _⟩ | ⟨hb2, _⟩ | ⟨hb2, _⟩ <;> simp [hb2]
  · rcases hph with ⟨_, _, hw⟩ | ⟨_, _, hw⟩ | ⟨_, _, hw⟩ | ⟨_, _, hw⟩
    · exact ⟨[], by simp [hw], Or.inl rfl⟩
    · exact ⟨_, hw, Or.inr (Or.inl rfl)⟩
    · exact ⟨_, hw, Or.inr (Or.inl rfl)⟩
    · exact ⟨_, hw, Or.inr (Or.inr rfl)⟩

/-- The concrete scenario of the design: alice and bob register, hello reaches
both; alice is unregistered, world reaches bob only. -/
theorem scenario_alice_bob :
    run (start newRouter)
      [Event.handlerRegister alice, Event.conn, Event.conn, Event.conn,
       Event.handlerRegister bob, Event.conn, Event.conn, Event.conn,
       Event.handlerPublish hello,
       Event.bcastLock [(alice.name, alice), (bob.name, bob)],
       Event.bcastWrite false, Event.bcastWrite false, Event.bcastUnlock,
       Event.handlerUnregister alice, Event.disc, Event.disc, Event.disc,
       Event.handlerPublish world,
       Event.bcastLock [(bob.name, bob)], Event.bcastWrite false, Event.bcastUnlock] =
    some { start { newRouter with clients := some [(bob.name, bob)] } with
      writes := [{ c := alice, message := hello, err := false },
                 { c := bob, message := hello, err := false },
                 { c := bob, message := world, err := false }] } := by
  decide

/-- A pass with a single failed write, made while the disconnection worker
stands at its receive and no other unregister request arrives: the pass goes
on to carol and ends, bob is then removed, and world reaches alice and carol
only. -/
theorem scenario_single_failure :
    run (start newRouter)
      [Event.handlerRegister alice, Event.conn, Event.conn, Event.conn,
       Event.handlerRegister bob, Event.conn, Event.conn, Event.conn,
       Event.handlerRegister carol, Event.conn, Event.conn, Event.conn,
       Event.handlerPublish hello,
       Event.bcastLock [(alice.name, alice), (bob.name, bob), (carol.name, carol)],
       Event.bcastWrite false, Event.bcastWrite true, Event.bcastUnregister,
       Event.bcastWrite false, Event.bcastUnlock,
       Event.disc, Event.disc, Event.disc,
       Event.handlerPublish world,
       Event.bcastLock [(alice.name, alice), (carol.name, carol)],
       Event.bcastWrite false, Event.bcastWrite false, Event.bcastUnlock] =
    some { start { newRouter with
        clients := some [(carol.name, carol), (alice.name, alice)] } with
      writes := [{ c := alice, message := hello, err := false },
                 { c := bob, message := hello, err := true },
                 { c := carol, message := hello, err := false },
                 { c := alice, message := world, err := false },
                 { c := carol, message := world, err := false }] } := by
  decide

/-! ## Theorems: the claims about the server -/

/-- C1, the code at the failing input.  With alice, bob and carol registered,
hello published and the map visited in the order alice, bob, carol: in every
schedule in which the `WriteMessage` calls of the pass fail, no write is ever
made to carol, who is in `router.clients`, and the pass never ends.  In
particular, when the writes to alice and to bob have failed, the broadcast
worker stands at its second send on `router.unregister` while the
disconnection worker, having received alice, waits at `Lock`, and from there
no schedule changes the history of writes. -/
theorem fanOut_stops_at_second_failure :
    run (start newRouter) threeClientsLock = some threeClientsLocked ∧
    carol ∈ handles threeClientsLocked.r ∧
    (∀ es s, run threeClientsLocked es = some s → Event.bcastWrite false ∉ es →
      carol ∉ s.writes.map WriteCall.c ∧ s.bcast ≠ BcastPC.recv ∧ s.r.mutex = true) ∧
    run (start newRouter) threeClientsTwoFailures = some threeClientsState ∧
    (∀ es s, run threeClientsState es = some s →
      s.writes = [{ c := alice, message := hello, err := true },
                  { c := bob, message := hello, err := true }] ∧
      s.bcast = BcastPC.send hello bob [(carol.name, carol)] ∧
      carol ∈ handles s.r) := by
  refine ⟨by decide, by decide, ?_, by decide, ?_⟩
  · intro es s h hfail
    obtain ⟨hm, hb, _, ws, hw, hws⟩ :=
      two_failed_writes_block threeClientsLocked hello alice.name bob.name alice bob
        [(carol.name, carol)] rfl rfl rfl (Or.inl rfl) es s h hfail
    refine ⟨?_, hb, hm⟩
    rw [hw]
    rcases hws with rfl | rfl | rfl <;> decide
  · intro es s h
    have hw : WaitOnEachOther threeClientsState :=
      ⟨⟨hello, bob, [(carol.name, carol)], rfl⟩, ⟨alice, rfl⟩, rfl, rfl⟩
    obtain ⟨hb, _, hr, hwr⟩ := waitOnEachOther_run hw es s h
    rw [hb, hr, hwr]
    exact ⟨rfl, rfl, by decide⟩

/-- C2, the code at the failing inputs.  From the fresh router, with alice and
bob registered and hello published: when the writes to both fail
(`twoFailures`), and also when only the write to alice fails while the
unregister request of alice's own handler has been received (`oneFailure`),
the server reaches a state in which the broadcast worker holds the mutex and
waits at its send on `router.unregister` and the disconnection worker waits at
`Lock`.  From either state no schedule moves either worker: the mutex stays
locked, the pass never ends, and the registry keeps the failed handles. -/
theorem broadcast_disconnect_deadlock :
    run (start newRouter) twoFailures = some twoFailuresState ∧
    run (start newRouter) oneFailure = some oneFailureState ∧
    (∀ es s, run twoFailuresState es = some s →
      s.bcast = BcastPC.send hello bob [] ∧ s.disc = DiscPC.lock alice ∧
      s.r.mutex = true ∧ handles s.r = [bob, alice] ∧ s.writes = twoFailuresState.writes) ∧
    (∀ es s, run oneFailureState es = some s →
      s.bcast = BcastPC.send hello alice [(bob.name, bob)] ∧ s.disc = DiscPC.lock alice ∧
      s.r.mutex = true ∧ handles s.r = [bob, alice] ∧ s.writes = oneFailureState.writes) := by
  refine ⟨by decide, by decide, ?_, ?_⟩
  · intro es s h
    have hw : WaitOnEachOther twoFailuresState :=
      ⟨⟨hello, bob, [], rfl⟩, ⟨alice, rfl⟩, rfl, rfl⟩
    obtain ⟨hb, hd, hr, hwr⟩ := waitOnEachOther_run hw es s h
    rw [hb, hd, hr, hwr]
    exact ⟨rfl, rfl, rfl, rfl, rfl⟩
  · intro es s h
    have hw : WaitOnEachOther oneFailureState :=
      ⟨⟨hello, alice, [(bob.name, bob)], rfl⟩, ⟨alice, rfl⟩, rfl, rfl⟩
    obtain ⟨hb, hd, hr, hwr⟩ := waitOnEachOther_run hw es s h
    rw [hb, hd, hr, hwr]
    exact ⟨rfl, rfl, rfl, rfl, rfl⟩

theorem rangeClients_disconnectionHandler (r : router) (c : client) :
    rangeClients (disconnectionHandler r c) = mapDelete (rangeClients r) c.name := by
  unfold rangeClients disconnectionHandler
  cases r.clients <;> simp [mapDelete]

/-- C3, the claim as stated fails: after alice and then a second client named
alice have been registered, the registry holds the second one; applying the
unregistration of the first removes the second, a different handle. -/
theorem unregister_removes_namesake :
    (connectionHandler newRouter alice).bind (fun r => connectionHandler r alice2)
      = some alice2Router ∧
    alice2 ≠ alice ∧
    alice2 ∈ handles alice2Router ∧
    alice2 ∉ handles (disconnectionHandler alice2Router alice) := by
  decide

/-- C3 as amended: applying the unregistration of `H` keeps every handle of
`router.clients` whose name differs from the name of `H`, with its entry as it
was, and removes every handle stored under the name of `H`. -/
theorem unregister_keeps_other_names (r : router) (hr : RegistryOK (rangeClients r))
    (H h : client) (hmem : h ∈ handles r) :
    (h.name ≠ H.name →
      h ∈ handles (disconnectionHandler r H) ∧
      mapLookup (rangeClients (disconnectionHandler r H)) h.name
        = mapLookup (rangeClients r) h.name) ∧
    (h.name = H.name → h ∉ handles (disconnectionHandler r H)) := by
  unfold handles at *
  rw [rangeClients_disconnectionHandler]
  obtain ⟨e, he, rfl⟩ := List.mem_map.1 hmem
  have hname := hr.2 e he
  constructor
  · intro hne
    refine ⟨List.mem_map.2 ⟨e, (mem_mapDelete _ _ e).2 ⟨he, ?_⟩, rfl⟩,
      mapLookup_mapDelete_ne _ _ _ hne⟩
    rw [← hname]; exact hne
  · intro heq hin
    obtain ⟨e2, he2, h2⟩ := List.mem_map.1 hin
    have hm := (mem_mapDelete _ _ e2).1 he2
    apply hm.2
    rw [← hr.2 e2 hm.1, h2]
    exact heq

/-- Witness of the amended C3: alice and bob registered, alice unregistered,
bob is kept. -/
theorem unregister_keeps_other_names_witness :
    RegistryOK (rangeClients aliceBobRouter) ∧ bob ∈ handles aliceBobRouter ∧
    bob.name ≠ alice.name ∧
    (bob ∈ handles (disconnectionHandler aliceBobRouter alice) ∧
      mapLookup (rangeClients (disconnectionHandler aliceBobRouter alice)) bob.name
        = mapLookup (rangeClients aliceBobRouter) bob.name) :=
  ⟨by decide, by decide, by decide,
   (unregister_keeps_other_names aliceBobRouter (by decide) alice bob (by decide)).1
     (by decide)⟩

theorem moves_cons_eq_some {st st2 : System × Handler} {m : Move} {ms : List Move} :
    moves st (m :: ms) = some st2 ↔ ∃ st1, move st m = some st1 ∧ moves st1 ms = some st2 := by
  rw [moves]
  cases move st m <;> simp

theorem handler_waits_step {st st1 : System × Handler} {m : Move}
    (hs : WaitOnEachOther st.1)
    (hpc : (∃ c, st.2.pc = HandlerPC.sendUnregister c) ∨
      ∃ c message, st.2.pc = HandlerPC.sendMessage c message)
    (h : move st m = some st1) : WaitOnEachOther st1.1 ∧ st1.2 = st.2 := by
  cases m with
  | server e =>
    simp only [move] at h
    cases hstep : step st.1 e with
    | none => rw [hstep] at h; cases h
    | some s1 =>
      rw [hstep] at h
      cases h
      exact ⟨(waitOnEachOther_step hs hstep).1, rfl⟩
  | handler e =>
    obtain ⟨⟨message, c, todo, hb⟩, ⟨d, hd⟩, _, _⟩ := hs
    rcases hpc with ⟨c1, hp⟩ | ⟨c1, m1, hp⟩
    · cases e <;> simp [move, handleWebSocketConnectionRequest, hp, step, hd] at h
    · cases e <;> simp [move, handleWebSocketConnectionRequest, hp, step, hb] at h

/-- Once the broadcast worker and the disconnection worker wait on each other,
a handler that stands at its deferred send on `router.unregister`, or at a
send on `router.messages`, stays there in every schedule: it makes no further
action, so it never closes its connection. -/
theorem handler_waits_forever (ms : List Move) :
    ∀ (st st2 : System × Handler), WaitOnEachOther st.1 →
      ((∃ c, st.2.pc = HandlerPC.sendUnregister c) ∨
        ∃ c message, st.2.pc = HandlerPC.sendMessage c message) →
      moves st ms = some st2 → st2.2 = st.2 := by
  induction ms with
  | nil =>
    intro st st2 _ _ h
    have : st = st2 := by simpa [moves] using h
    rw [this]
  | cons m ms ih =>
    intro st st2 hs hpc h
    obtain ⟨st1, h1, h2⟩ := moves_cons_eq_some.1 h
    obtain ⟨hs1, heq⟩ := handler_waits_step hs hpc h1
    rw [← heq]
    exact ih st1 st2 hs1 (by rw [heq]; exact hpc) h2

/-- When the first read fails, whatever the state of the server, the handler
returns after the transport close alone: it makes no send. -/
theorem first_read_fails (s : System) (connection : Conn) :
    moves (s, accepted)
      [Move.handler (HandlerEvent.upgrade (some connection)),
       Move.handler (HandlerEvent.read none), Move.handler HandlerEvent.close] =
    some (s, { pc := HandlerPC.returned, trace := [Action.close connection] }) := by
  rfl

/-- With workers that receive each send, the handler of bob makes the whole
protocol: register, publish, unregister, close. -/
theorem scenario_bob_session :
    moves (start newRouter, accepted) bobSession =
    some ({ start newRouter with writes := [{ c := bob, message := hello, err := false }] },
          { pc := HandlerPC.returned,
            trace := [Action.register bob, Action.publish hello, Action.unregister bob,
                      Action.close 2] }) := by
  decide

/-- C4, the code at the failing input.  The read results on bob's connection
are the name bob and then an error, the error coming after a pass of the
broadcast worker has had two failed writes.  The handler has registered bob and
stands at its deferred send on `router.unregister`; the disconnection worker
waits at `Lock` and never receives it.  In every schedule from there the
handler stays at that send: the unregister request never completes and the
transport close is never made. -/
theorem handler_never_closes :
    moves (start newRouter, accepted) bobReadFails = some (twoFailuresState, bobAtUnregister) ∧
    (∀ ms st, moves (twoFailuresState, bobAtUnregister) ms = some st →
      st.2.pc = HandlerPC.sendUnregister bob ∧ st.2.trace = [Action.register bob] ∧
      Action.close 2 ∉ st.2.trace ∧ Action.unregister bob ∉ st.2.trace) := by
  refine ⟨by decide, ?_⟩
  intro ms st h
  have hw : WaitOnEachOther twoFailuresState :=
    ⟨⟨hello, bob, [], rfl⟩, ⟨alice, rfl⟩, rfl, rfl⟩
  have heq := handler_waits_forever ms (twoFailuresState, bobAtUnregister) st hw
    (Or.inl ⟨bob, rfl⟩) h
  rw [heq]
  exact ⟨rfl, rfl, by decide, by decide⟩

/-- Registering `H1` and then `H2`, both named `n`, succeeds and leaves
`router.clients` mapping `n` to `H2` and to nothing else, and the entries under
every other name as they were.  For a pass started on that registry: when no
write fails the pass runs to its end and has then written exactly once to `H2`
and not to `H1`; at no point of any pass has a write gone to `H1`; and at the
end of every pass that ends exactly one write has gone to `H2`. -/
theorem overwrite_registry_and_pass (r : router) (m : ClientMap) (hm : r.clients = some m)
    (hok : RegistryOK m) (n : GoString) (H1 H2 : client) (h1 : H1.name = n) (h2 : H2.name = n)
    (hne : H1 ≠ H2) :
    ∃ r2, (connectionHandler r H1).bind (fun r1 => connectionHandler r1 H2) = some r2 ∧
      mapLookup (rangeClients r2) n = some H2 ∧
      (∀ h, (n, h) ∈ rangeClients r2 ↔ h = H2) ∧
      (∀ k h, k ≠ n → ((k, h) ∈ rangeClients r2 ↔ (k, h) ∈ m)) ∧
      (∀ k, k ≠ n → mapLookup (rangeClients r2) k = mapLookup m k) ∧
      ∀ (s s1 : System) (ord : ClientMap), s.r.clients = r2.clients →
        step s (Event.bcastLock ord) = some s1 →
        (∃ s3 ws, run s1 (nominalPass ord.length) = some s3 ∧ s3.writes = s.writes ++ ws ∧
          (ws.map WriteCall.c).count H2 = 1 ∧ H1 ∉ ws.map WriteCall.c) ∧
        (∀ es2 s2, run s1 es2 = some s2 → Event.bcastUnlock ∉ es2 →
          ∃ ws, s2.writes = s.writes ++ ws ∧ H1 ∉ ws.map WriteCall.c) ∧
        (∀ es2 s2 s3, run s1 es2 = some s2 → Event.bcastUnlock ∉ es2 →
          step s2 Event.bcastUnlock = some s3 →
          ∃ ws, s3.writes = s.writes ++ ws ∧ (ws.map WriteCall.c).count H2 = 1 ∧
            H1 ∉ ws.map WriteCall.c) := by
  subst h1
  refine ⟨{ r with clients := some (mapStore (mapStore m H1.name H1) H1.name H2) }, ?_, ?_⟩
  · simp [connectionHandler, hm, h2]
  have hrc : rangeClients { r with clients := some (mapStore (mapStore m H1.name H1) H1.name H2) }
      = mapStore (mapStore m H1.name H1) H1.name H2 := rfl
  rw [hrc]
  have hok2 : RegistryOK (mapStore (mapStore m H1.name H1) H1.name H2) := by
    have := (hok.mapStore H1).mapStore H2
    rwa [h2] at this
  have hin2 : H2 ∈ (mapStore (mapStore m H1.name H1) H1.name H2).map Prod.snd :=
    List.mem_map.2 ⟨(H1.name, H2), List.mem_cons_self _ _, rfl⟩
  have hout1 : H1 ∉ (mapStore (mapStore m H1.name H1) H1.name H2).map Prod.snd := by
    intro hb
    obtain ⟨e, he, hsnd⟩ := List.mem_map.1 hb
    have hkey := hok2.2 e he
    rcases (mem_mapStore _ _ _ e).1 he with heq | ⟨_, hk⟩
    · apply hne
      rw [← hsnd, heq]
    · apply hk
      rw [← hkey, hsnd]
  refine ⟨mapLookup_mapStore_self _ _ _, ?_, ?_, ?_, ?_⟩
  · intro h
    rw [mem_mapStore]
    constructor
    · rintro (heq | ⟨_, hk⟩)
      · exact (Prod.mk.inj heq).2
      · exact absurd rfl hk
    · rintro rfl; exact Or.inl rfl
  · intro k h hk
    rw [mem_mapStore, mem_mapStore]
    constructor
    · rintro (heq | ⟨heq | ⟨hin, _⟩, _⟩)
      · exact absurd (Prod.mk.inj heq).1 hk
      · exact absurd (Prod.mk.inj heq).1 hk
      · exact hin
    · intro hin
      exact Or.inr ⟨Or.inr ⟨hin, hk⟩, hk⟩
  · intro k hk
    rw [mapLookup_mapStore_ne _ _ _ _ hk, mapLookup_mapStore_ne _ _ _ _ hk]
  · intro s s1 ord hs hlock
    obtain ⟨message, _, hperm, hb1, hin, hw1⟩ := pass_start hlock
    have hrs : rangeClients s.r = mapStore (mapStore m H1.name H1) H1.name H2 := by
      simp [rangeClients, hs]
    rw [hrs] at hperm
    have hp := hperm.map Prod.snd
    refine ⟨?_, ?_, ?_⟩
    · obtain ⟨s3, h3, _, hw3, _⟩ := pass_completes ord s1 message hb1
      refine ⟨s3, _, h3, by rw [hw3, hw1], ?_, ?_⟩
      · rw [List.map_map]
        show (ord.map Prod.snd).count H2 = 1
        rw [hp.count_eq]
        exact List.count_eq_one_of_mem hok2.nodup_handles hin2
      · rw [List.map_map]
        show H1 ∉ ord.map Prod.snd
        exact fun hv => hout1 (hp.mem_iff.1 hv)
    · intro es2 s2 h2r hnu
      obtain ⟨visited, todo, ws, hord, hw, hmap, _⟩ :=
        inPass_run es2 s1 s2 message ord s.writes hin h2r hnu
      refine ⟨ws, hw, ?_⟩
      rw [(writes_handles hmap).1]
      intro hv
      apply hout1
      apply hp.mem_iff.1
      rw [hord, List.map_append]
      exact List.mem_append_left _ hv
    · intro es2 s2 s3 h2r hnu h3
      obtain ⟨ws, hw, hmap⟩ :=
        inPass_unlock (inPass_run es2 s1 s2 message ord s.writes hin h2r hnu) h3
      refine ⟨ws, hw, ?_, ?_⟩
      · rw [(writes_handles hmap).1, hp.count_eq]
        exact List.count_eq_one_of_mem hok2.nodup_handles hin2
      · rw [(writes_handles hmap).1]
        exact fun hv => hout1 (hp.mem_iff.1 hv)

/-- C5, the code at the failing input.  Alice, bob and carol are registered and
then a second client named carol: `router.clients` maps the name to the second
carol and no longer holds the first.  In the pass for hello that visits alice,
bob and then the second carol, in every schedule in which the `WriteMessage`
calls of the pass fail, no write is ever made to the second carol and the pass
never ends.  In particular, when the writes to alice and to bob have failed,
the broadcast worker stands at its second send on `router.unregister` while
the disconnection worker waits at `Lock`, and from there no schedule changes
the history of writes. -/
theorem overwritten_name_not_reached :
    run (start newRouter) overwriteLock = some overwriteLocked ∧
    mapLookup (rangeClients overwriteLocked.r) carol.name = some carol2 ∧
    carol2.name = carol.name ∧ carol2 ≠ carol ∧
    carol2 ∈ handles overwriteLocked.r ∧ carol ∉ handles overwriteLocked.r ∧
    (∀ es s, run overwriteLocked es = some s → Event.bcastWrite false ∉ es →
      carol2 ∉ s.writes.map WriteCall.c ∧ s.bcast ≠ BcastPC.recv ∧ s.r.mutex = true) ∧
    run (start newRouter) overwriteTwoFailures = some overwriteState ∧
    (∀ es s, run overwriteState es = some s →
      s.writes = [{ c := alice, message := hello, err := true },
                  { c := bob, message := hello, err := true }] ∧
      s.bcast = BcastPC.send hello bob [(carol2.name, carol2)] ∧
      carol2 ∈ handles s.r) := by
  refine ⟨by decide, by decide, by decide, by decide, by decide, by decide, ?_, by decide, ?_⟩
  · intro es s h hfail
    obtain ⟨hm, hb, _, ws, hw, hws⟩ :=
      two_failed_writes_block overwriteLocked hello alice.name bob.name alice bob
        [(carol2.name, carol2)] rfl rfl rfl (Or.inl rfl) es s h hfail
    refine ⟨?_, hb, hm⟩
    rw [hw]
    rcases hws with rfl | rfl | rfl <;> decide
  · intro es s h
    have hw : WaitOnEachOther overwriteState :=
      ⟨⟨hello, bob, [(carol2.name, carol2)], rfl⟩, ⟨alice, rfl⟩, rfl, rfl⟩
    obtain ⟨hb, _, hr, hwr⟩ := waitOnEachOther_run hw es s h
    rw [hb, hr, hwr]
    exact ⟨rfl, rfl, by decide⟩

/-- C6. Idempotent unregister: applying the unregistration of a client whose
name is not a key of `router.clients` leaves the router, and so
`router.clients`, unchanged (the function is total: no error); and for every
client, applying its unregistration twice gives the same router as applying
it once. -/
theorem unregister_idempotent (r : router) (c : client) :
    (c.name ∉ (rangeClients r).map Prod.fst → disconnectionHandler r c = r) ∧
    disconnectionHandler (disconnectionHandler r c) c = disconnectionHandler r c := by
  obtain ⟨ms, rg, ur, cl, mx⟩ := r
  cases cl with
  | none => exact ⟨fun _ => rfl, rfl⟩
  | some m =>
    constructor
    · intro h
      have : mapDelete m c.name = m := mapDelete_of_not_mem m c.name h
      simp [disconnectionHandler, this]
    · simp [disconnectionHandler, mapDelete_mapDelete]

/-- Witness of C6: carol is not registered in the router of alice and bob. -/
theorem unregister_idempotent_witness :
    carol.name ∉ (rangeClients aliceBobRouter).map Prod.fst ∧
    disconnectionHandler aliceBobRouter carol = aliceBobRouter :=
  ⟨by decide, (unregister_idempotent aliceBobRouter carol).1 (by decide)⟩

theorem only_empty_order_before_store (ord : ClientMap) (s : System)
    (h : run (start newRouter)
      [Event.handlerRegister alice, Event.handlerPublish hello, Event.bcastLock ord] = some s) :
    ord = [] := by
  obtain ⟨s0, h0, h1⟩ := run_cons_eq_some.1 h
  obtain ⟨s1, h2, h3⟩ := run_cons_eq_some.1 h1
  obtain ⟨s2, h4, _⟩ := run_cons_eq_some.1 h3
  have hs0 : s0 = { start newRouter with conn := ConnPC.lock alice } := by
    simpa [step, start, newRouter, eq_comm] using h0
  subst hs0
  have hs1 : s1 = { start newRouter with
      conn := ConnPC.lock alice, bcast := BcastPC.lock hello } := by
    simpa [step, start, newRouter, eq_comm] using h2
  subst hs1
  obtain ⟨_, _, _, hperm, _⟩ := step_bcastLock h4
  exact List.Perm.eq_nil hperm

/-- C7, the claim as stated fails: from the fresh router the register request of
alice completes (one handler, N = 1), hello is published afterwards, and the
broadcast worker runs its whole pass for hello, over the still empty map,
before `connectionHandler` has stored alice: the pass has ended, the broadcast
worker is back at its receive, and the history holds no write at all, where
the claim says one. -/
theorem publish_overtakes_registration :
    registered publishOvertakes = [alice] ∧
    run (start newRouter) publishOvertakes =
      some { r := newRouter, conn := ConnPC.lock alice, disc := DiscPC.recv,
             bcast := BcastPC.recv, writes := [] } := by
  refine ⟨rfl, by decide⟩

/-- C7 as amended.  In every interleaving from the fresh router in which no
unregister request is received and the register requests received are for
distinct names: at the moment the broadcast worker locks the mutex for a
message, the fan-out iterates over exactly the handles `connectionHandler` has
stored by then.  If it has stored every one of them (it stands at its
receive), these are all N handles; if it has received a client and not yet
stored it, these are the other N - 1 handles and not that client.  When no
write fails the pass runs to its end, and whenever the pass ends it has
written the message exactly once to each handle it iterates over, whatever
else is interleaved with the pass. -/
theorem stored_registrations_visible (es : List Event) (s : System)
    (hrun : run (start newRouter) es = some s)
    (hno : ∀ e ∈ es, isUnregister e = false)
    (hnames : ((registered es).map client.name).Nodup)
    (ord : ClientMap) (s1 : System) (hlock : step s (Event.bcastLock ord) = some s1) :
    (s.conn = ConnPC.recv →
      ord.length = (registered es).length ∧ (ord.map Prod.snd).Perm (registered es)) ∧
    (∀ c, s.conn = ConnPC.lock c →
      ord.length + 1 = (registered es).length ∧ c ∈ registered es ∧ c ∉ ord.map Prod.snd) ∧
    ∃ message, s.bcast = BcastPC.lock message ∧
      (∃ s3, run s1 (nominalPass ord.length) = some s3 ∧
        s3.writes = s.writes ++
          ord.map (fun e => { c := e.2, message := message, err := false })) ∧
      ∀ es2 s2 s3, run s1 es2 = some s2 → Event.bcastUnlock ∉ es2 →
        step s2 Event.bcastUnlock = some s3 →
        ∃ ws, s3.writes = s.writes ++ ws ∧
          ws.map (fun w => (w.c, w.message)) = ord.map (fun e => (e.2, message)) := by
  have h0 : StoredOrPending (start newRouter) [] :=
    ⟨rfl, [], rfl, by simp, by simp [start, ConnPC.pending]⟩
  have hinv := storedOrPending_run es (start newRouter) s [] h0 hrun hno (by simpa using hnames)
  obtain ⟨_, m, hm, _, hperm⟩ := hinv
  rw [List.nil_append] at hperm
  obtain ⟨message, hb, hord, hb1, hin, hw1⟩ := pass_start hlock
  have hrc : rangeClients s.r = m := by simp [rangeClients, hm]
  rw [hrc] at hord
  have hp : (ord.map Prod.snd ++ s.conn.pending).Perm (registered es) :=
    ((hord.map Prod.snd).append_right _).trans hperm
  refine ⟨?_, ?_, message, hb, ?_, ?_⟩
  · intro hstored
    simp only [hstored, ConnPC.pending, List.append_nil] at hp
    exact ⟨by rw [← hp.length_eq, List.length_map], hp⟩
  · intro c hc
    simp only [hc, ConnPC.pending] at hp
    refine ⟨by rw [← hp.length_eq, List.length_append, List.length_map]; rfl, ?_, ?_⟩
    · exact hp.mem_iff.1 (by simp)
    · have hnd : (ord.map Prod.snd ++ [c]).Nodup :=
        hp.nodup_iff.2 (List.Nodup.of_map _ hnames)
      intro hmem
      exact (List.nodup_append.1 hnd).2.2 hmem (by simp)
  · obtain ⟨s3, h3, _, hw3, _⟩ := pass_completes ord s1 message hb1
    exact ⟨s3, h3, by rw [hw3, hw1]⟩
  · intro es2 s2 s3 h2 hnu h3
    exact inPass_unlock (inPass_run es2 s1 s2 message ord s.writes hin h2 hnu) h3

/-- Witness of the amended C7: alice and bob both stored before the broadcast
worker locks the mutex for hello. -/
theorem stored_registrations_visible_witness :
    run (start newRouter) bothStored = some bothStoredState ∧
    ((registered bothStored).map client.name).Nodup ∧
    bothStoredState.conn = ConnPC.recv ∧
    step bothStoredState (Event.bcastLock [(alice.name, alice), (bob.name, bob)]) =
      some { bothStoredState with
        r := setMutex aliceBobRouter true
        bcast := BcastPC.range hello [(alice.name, alice), (bob.name, bob)] } ∧
    [(alice.name, alice), (bob.name, bob)].length = (registered bothStored).length :=
  ⟨by decide, by decide, rfl, by decide,
   ((stored_registrations_visible bothStored bothStoredState (by decide) (by decide) (by decide)
      [(alice.name, alice), (bob.name, bob)]
      { bothStoredState with
        r := setMutex aliceBobRouter true
        bcast := BcastPC.range hello [(alice.name, alice), (bob.name, bob)] }
      (by decide)).1 rfl).1⟩

/-- C8. The client made by `newClient b c` has as name the string with exactly
the bytes of `b`, also for the empty `b`, and has the connection `c`. -/
theorem newClient_name_connection (b : Bytes) (c : Conn) :
    (newClient b c).name = b ∧ (newClient b c).connection = c ∧
    (newClient [] c).name = [] ∧ (newClient b c).name.length = b.length :=
  ⟨rfl, rfl, rfl, rfl⟩

/-- C9. The router made by `newRouter` has non-nil channels and a non-nil,
empty map: a registration applied to it succeeds and gives the map with that
one entry; and for a message published before any registration, the range
loop of the broadcast worker can take only the empty order, and the pass ends
without any write. -/
theorem newRouter_initialised :
    newRouter.messages ≠ none ∧ newRouter.register ≠ none ∧ newRouter.unregister ≠ none ∧
    newRouter.clients = some [] ∧
    (∀ c, connectionHandler newRouter c =
      some { newRouter with clients := some [(c.name, c)] }) ∧
    (∀ message, run (start newRouter)
        (Event.handlerPublish message :: Event.bcastLock [] :: nominalPass 0)
        = some (start newRouter)) ∧
    (∀ message ord s, run (start newRouter) [Event.handlerPublish message, Event.bcastLock ord]
        = some s → ord = [] ∧ s.bcast = BcastPC.range message [] ∧ s.writes = []) := by
  refine ⟨by decide, by decide, by decide, rfl, fun c => rfl, ?_, ?_⟩
  · intro message
    rfl
  · intro message ord s h
    obtain ⟨s0, h0, h1⟩ := run_cons_eq_some.1 h
    obtain ⟨s1, hs, h2⟩ := run_cons_eq_some.1 h1
    have hs1 : s1 = s := by simpa [run] using h2
    have hs0 : s0 = { start newRouter with bcast := BcastPC.lock message } := by
      simpa [step, connectionHandlerStep, disconnectionHandlerStep,
          messageBroadcastHandlerStep, start, newRouter, eq_comm] using h0
    subst hs1 hs0
    obtain ⟨msg, hb, _, hperm, hst⟩ := step_bcastLock hs
    have hnil : ord = [] := List.Perm.eq_nil hperm
    have hmsg : message = msg := by simpa using hb
    subst hnil hmsg hst
    exact ⟨rfl, rfl, rfl⟩

end Relay

/-! ## Theorems: the client program -/

namespace Client

theorem wrapInt64_succ (t : Int) (h0 : 0 ≤ t) (h1 : t + 1 < 2 ^ 63) :
    wrapInt64 (t + 1) = t + 1 := by
  unfold wrapInt64
  norm_num at h1 ⊢
  omega

theorem outgoingLoop_get (name : Relay.GoString) (n : Nat) :
    ∀ (t : Int) (k : Nat), 1 ≤ t → t + n ≤ 2 ^ 63 → k < n →
      (outgoingLoop name t (List.replicate n false)).get? k =
        some (sprintfNameCount name (t + k)) := by
  induction n with
  | zero => intro t k _ _ hk; exact absurd hk (Nat.not_lt_zero k)
  | succ n ih =>
    intro t k ht hn hk
    rw [List.replicate_succ, outgoingLoop]
    cases k with
    | zero => simp
    | succ k =>
      have hw : wrapInt64 (t + 1) = t + 1 := wrapInt64_succ t (by omega) (by push_cast at hn; omega)
      simp only [Bool.false_eq_true, if_false, List.get?_cons_succ, hw]
      rw [ih (t + 1) k (by omega) (by push_cast at hn ⊢; omega) (by omega)]
      congr 2
      push_cast
      ring

/-- C10, the code at the failing input.  With the command line `-name alice`,
`flag.Parse` stores alice in the variable of the flag, but the package
variable `name` keeps what `init` read before parsing: the first frame is
anonymous and the messages are anonymous followed by the counter.  The same
holds for every command line: after `flag.Parse` the name is anonymous. -/
theorem name_flag_ignored :
    (afterParse nameAlice).map firstFrame = some (Relay.lit "anonymous") ∧
    (afterParse nameAlice).map (fun g => deref g.flags 1) = some (Relay.lit "alice") ∧
    (afterParse nameAlice).map (fun g => outgoingMessageHandler g [false, false]) =
      some [Relay.lit "anonymous: 1", Relay.lit "anonymous: 2"] ∧
    (∀ args g, afterParse args = some g → g.name = Relay.lit "anonymous") := by
  refine ⟨by decide, by decide, by decide, ?_⟩
  intro args g h
  unfold afterParse at h
  cases hp : flagParse init.flags args with
  | none => rw [hp] at h; cases h
  | some fs =>
    rw [hp] at h
    cases h
    show init.name = Relay.lit "anonymous"
    decide

end Client
